import Mathlib

/-!
Verification of the oneshot dynamic MCP orchestrator against its
natural-language specification.

The Python sources are shallowly embedded: strings are lists of Unicode
code points (`Str`), dictionaries are insertion-ordered association lists
(matching CPython dict semantics), fallible operations return `Option` or
`Except`, and external libraries (Fernet encryption, SHA-256, the HTTP
stack, the LLM agent graph) are abstracted as parameters constrained only
by their documented contracts.
-/

namespace Oneshot

/-- Strings are modelled as lists of Unicode code points. -/
abbrev Str := List Nat

/-- Code points of a Lean string literal, used to write concrete inputs. -/
def strCodes (s : String) : Str := s.toList.map Char.toNat

/-- ASCII lowercasing of one code point (Python `str.lower` restricted to
the ASCII range, which covers every string these claims evaluate). -/
def lowerCode (c : Nat) : Nat := if 65 ≤ c ∧ c ≤ 90 then c + 32 else c

/-- Python `s.lower()`. -/
def lowerStr (s : Str) : Str := s.map lowerCode

/-- Python substring test `pat in s` on strings. -/
def isSubstr (pat : Str) : Str → Bool
  | [] => pat.isEmpty
  | c :: tl => pat.isPrefixOf (c :: tl) || isSubstr pat tl

/-- Python dict assignment `d[k] = v`: replace the value in place when the
key is present, append a new entry otherwise. -/
def updateAssoc {α : Type} : List (Str × α) → Str → α → List (Str × α)
  | [], k, v => [(k, v)]
  | (k', v') :: rest, k, v =>
    if k' = k then (k, v) :: rest else (k', v') :: updateAssoc rest k v

/-- Python dict lookup `d.get(k)`: the value of the first entry with key
`k` (association lists built from dicts have unique keys). -/
def lookupAssoc {α : Type} : List (Str × α) → Str → Option α
  | [], _ => none
  | (k', v') :: rest, k => if k' = k then some v' else lookupAssoc rest k

/-- Python `k in d` on a dict. -/
def hasKey {α : Type} (d : List (Str × α)) (k : Str) : Bool :=
  d.any (fun e => e.1 = k)

/-! ## Server specifications (src/src/oneshotmcp/config.py and
src/src/deepmcpagent/config.py; the two files declare identical spec
models) -/

/-- `StdioServerSpec`: a local MCP server launched via stdio. -/
structure StdioServerSpec where
  command : Str
  args : List Str
  env : List (Str × Str)
  cwd : Option Str
  keep_alive : Bool
deriving DecidableEq, Repr

/-- `HTTPServerSpec`: a remote MCP server reachable via HTTP/SSE.
`transport` is one of "http", "streamable-http", "sse". -/
structure HTTPServerSpec where
  url : Str
  transport : Str
  headers : List (Str × Str)
  auth : Option Str
deriving DecidableEq, Repr

/-- `ServerSpec = StdioServerSpec | HTTPServerSpec`. -/
inductive ServerSpec where
  | stdio (s : StdioServerSpec)
  | http (h : HTTPServerSpec)
deriving DecidableEq, Repr

/-- A JSON-ish value appearing in the FastMCP wire configuration. `null`
models Python `None` leaking into the produced dict. -/
inductive WireVal where
  | str (s : Str)
  | strList (l : List Str)
  | strMap (m : List (Str × Str))
  | boolean (b : Bool)
  | null
deriving DecidableEq, Repr

/-- One wire-config entry: an insertion-ordered dict of wire values. -/
abbrev WireEntry := List (Str × WireVal)

/-- The HTTP branch of `servers_to_mcp_config`, identical in both config
modules: headers only when non-empty, auth only when not None. -/
def httpWireEntry (h : HTTPServerSpec) : WireEntry :=
  [(strCodes ("transport"), WireVal.str h.transport),
   (strCodes ("url"), WireVal.str h.url)]
  ++ (if h.headers.isEmpty then [] else [(strCodes ("headers"), WireVal.strMap h.headers)])
  ++ (match h.auth with
      | none => []
      | some a => [(strCodes ("auth"), WireVal.str a)])

/-- The stdio branch of `servers_to_mcp_config` in
src/src/oneshotmcp/config.py: `env` only when it has values, `cwd` only
when set. -/
def oneshotStdioWireEntry (s : StdioServerSpec) : WireEntry :=
  [(strCodes ("transport"), WireVal.str (strCodes ("stdio"))),
   (strCodes ("command"), WireVal.str s.command),
   (strCodes ("args"), WireVal.strList s.args),
   (strCodes ("keep_alive"), WireVal.boolean s.keep_alive)]
  ++ (if s.env.isEmpty then [] else [(strCodes ("env"), WireVal.strMap s.env)])
  ++ (match s.cwd with
      | none => []
      | some c => [(strCodes ("cwd"), WireVal.str c)])

/-- The stdio branch of `servers_to_mcp_config` in
src/src/deepmcpagent/config.py: it always emits the `env` and `cwd` keys,
as `"env": s.env or None` and `"cwd": s.cwd or None` (Python `or` maps an
empty dict, `None`, or an empty string to `None`). -/
def deepmcpStdioWireEntry (s : StdioServerSpec) : WireEntry :=
  [(strCodes ("transport"), WireVal.str (strCodes ("stdio"))),
   (strCodes ("command"), WireVal.str s.command),
   (strCodes ("args"), WireVal.strList s.args),
   (strCodes ("env"), if s.env.isEmpty then WireVal.null else WireVal.strMap s.env),
   (strCodes ("cwd"), match s.cwd with
      | none => WireVal.null
      | some c => if c.isEmpty then WireVal.null else WireVal.str c),
   (strCodes ("keep_alive"), WireVal.boolean s.keep_alive)]

/-- `servers_to_mcp_config` of src/src/oneshotmcp/config.py. -/
def oneshotServersToMcpConfig (servers : List (Str × ServerSpec)) :
    List (Str × WireEntry) :=
  servers.map (fun e =>
    (e.1, match e.2 with
      | ServerSpec.stdio s => oneshotStdioWireEntry s
      | ServerSpec.http h => httpWireEntry h))

/-- `servers_to_mcp_config` of src/src/deepmcpagent/config.py. -/
def deepmcpServersToMcpConfig (servers : List (Str × ServerSpec)) :
    List (Str × WireEntry) :=
  servers.map (fun e =>
    (e.1, match e.2 with
      | ServerSpec.stdio s => deepmcpStdioWireEntry s
      | ServerSpec.http h => httpWireEntry h))

/-! ## Candidate ranking (src/src/oneshotmcp/orchestrator.py,
`DynamicOrchestrator._rank_servers`) -/

/-- A Smithery search result record, as consumed by `_rank_servers`
(`server.get("qualifiedName")`, `server.get("name")`,
`server.get("description")`; a missing key yields `None`). -/
structure Candidate where
  qualifiedName : Option Str
  name : Option Str
  description : Option Str
deriving DecidableEq, Repr

/-- `calculate_score` inside `_rank_servers`: 100 for a case-insensitive
capability hit in the qualified name, else 80 in the name, else 60 in the
description, else `40 + 5 * matches` when research keywords are present
and at least one matches the description, else 0. `x or ""` in the source
maps both a missing key and an empty value to the empty string. -/
def calculateScore (capability : Str) (researchKeywords : List Str)
    (server : Candidate) : Nat :=
  let qualified_name := lowerStr (server.qualifiedName.getD [])
  let name := lowerStr (server.name.getD [])
  let description := lowerStr (server.description.getD [])
  let capability_lower := lowerStr capability
  if isSubstr capability_lower qualified_name then 100
  else if isSubstr capability_lower name then 80
  else if isSubstr capability_lower description then 60
  else if researchKeywords.isEmpty then 0
  else
    let nMatches :=
      (researchKeywords.filter (fun kw => isSubstr (lowerStr kw) description)).length
    if 0 < nMatches then 40 + nMatches * 5 else 0

/-- Stable descending insertion for scored candidates: a new element goes
after every element whose score is at least its own, which is exactly the
order produced by Python's stable `sorted(..., reverse=True)`. -/
def insertDesc (x : Candidate × Nat) : List (Candidate × Nat) → List (Candidate × Nat)
  | [] => [x]
  | y :: ys => if x.2 ≤ y.2 then y :: insertDesc x ys else x :: y :: ys

/-- Stable descending sort by score (Python
`sorted(scored, key=lambda x: x[1], reverse=True)`). -/
def sortByScoreDesc (scored : List (Candidate × Nat)) : List (Candidate × Nat) :=
  scored.foldl (fun acc x => insertDesc x acc) []

/-- `DynamicOrchestrator._rank_servers`: score every candidate, sort
descending, and return the candidates. Note that the source returns
`[s for s, _ in ranked]` without removing zero-score candidates. -/
def rankServers (capability : Str) (researchKeywords : List Str)
    (servers : List Candidate) : List Candidate :=
  let scored := servers.map (fun s => (s, calculateScore capability researchKeywords s))
  let ranked := sortByScoreDesc scored
  ranked.map Prod.fst

/-! ## Local installer (src/src/oneshotmcp/local_installer.py) -/

/-- One entry of a connection `configSchema.properties`: only the fields
the installer reads (`envVar`, `description`); `type` is never consumed by
`build_npx_command` or `create_stdio_server_spec`. -/
structure FieldProps where
  envVar : Option Str
  description : Option Str
deriving DecidableEq, Repr

/-- `properties.get(field, {})` followed by `.get("envVar")`. -/
def propEnvVar (properties : List (Str × FieldProps)) (field : Str) : Option Str :=
  (lookupAssoc properties field).bind (fun p => p.envVar)

/-- Python `re.sub(r"([A-Z])", r"-\1", field).lower()` prefixed with
`--`: every uppercase letter becomes a dash followed by its lowercase
form, and the rest is lowercased. -/
def kebabFlag (field : Str) : Str :=
  [45, 45] ++ field.flatMap (fun c => if 65 ≤ c ∧ c ≤ 90 then [45, c + 32] else [lowerCode c])

/-- The required-field check of `build_npx_command`: a required field that
is not in `user_config` passes only when its `envVar` is a non-empty name
bound to a non-empty value in the process environment (`env_var and
os.getenv(env_var)` — Python treats `None` and `""` as falsy); otherwise
`ValueError` is raised. -/
def requiredSatisfied (osEnv : Str → Option Str)
    (properties : List (Str × FieldProps)) (userConfig : List (Str × Str))
    (field : Str) : Bool :=
  hasKey userConfig field ||
    (match propEnvVar properties field with
     | none => false
     | some e => !e.isEmpty && !((osEnv e).getD []).isEmpty)

/-- `LocalMCPInstaller.build_npx_command`: `["npx", "-y", package]`
followed, for every `user_config` field present in `properties`, by its
kebab-case flag and stringified value. `Except.error` models the raised
`ValueError` for a missing required field. -/
def build_npx_command (osEnv : Str → Option Str) (package_name : Str)
    (required : List Str) (properties : List (Str × FieldProps))
    (user_config : List (Str × Str)) : Except Unit (List Str) :=
  if required.all (requiredSatisfied osEnv properties user_config) then
    Except.ok ((strCodes ("npx") :: strCodes ("-y") :: package_name :: []) ++
      user_config.flatMap (fun e =>
        if hasKey properties e.1 then [kebabFlag e.1, e.2] else []))
  else Except.error ()

/-- The `env_vars` dict built by `create_stdio_server_spec`: for each
`user_config` field whose properties declare a truthy (non-empty)
`envVar`, bind that environment variable to the stringified value. -/
def installerEnvVars (properties : List (Str × FieldProps))
    (user_config : List (Str × Str)) : List (Str × Str) :=
  user_config.foldl (fun acc e =>
    match propEnvVar properties e.1 with
    | some ev => if ev.isEmpty then acc else updateAssoc acc ev e.2
    | none => acc) []

/-- `LocalMCPInstaller.create_stdio_server_spec`: build the npx command
and wrap it into a `StdioServerSpec` with `command = cmd[0]`,
`args = cmd[1:]`, the collected env vars, and `keep_alive=True`. -/
def create_stdio_server_spec (osEnv : Str → Option Str) (package_name : Str)
    (required : List Str) (properties : List (Str × FieldProps))
    (user_config : List (Str × Str)) : Except Unit StdioServerSpec :=
  match build_npx_command osEnv package_name required properties user_config with
  | Except.error e => Except.error e
  | Except.ok cmd =>
    Except.ok
      { command := cmd.headD []
        args := cmd.tail
        env := installerEnvVars properties user_config
        cwd := none
        keep_alive := true }


/-! ## PKCE (src/src/oneshotmcp/oauth.py, `PKCEAuthenticator`) -/

/-- Character code of digit `n` in the URL-safe base64 alphabet
`A-Z a-z 0-9 - _`. -/
def b64Char (n : Nat) : Nat :=
  if n < 26 then 65 + n
  else if n < 52 then 97 + (n - 26)
  else if n < 62 then 48 + (n - 52)
  else if n = 62 then 45
  else 95

/-- `base64.urlsafe_b64encode` over a byte list, producing character
codes, including `=` (code 61) padding. -/
def base64urlEncode : List Nat → Str
  | [] => []
  | [b1] => [b64Char (b1 / 4), b64Char (b1 % 4 * 16), 61, 61]
  | [b1, b2] => [b64Char (b1 / 4), b64Char (b1 % 4 * 16 + b2 / 16), b64Char (b2 % 16 * 4), 61]
  | b1 :: b2 :: b3 :: rest =>
    b64Char (b1 / 4) :: b64Char (b1 % 4 * 16 + b2 / 16) ::
    b64Char (b2 % 16 * 4 + b3 / 64) :: b64Char (b3 % 64) :: base64urlEncode rest

/-- Python `s.rstrip("=")`: drop every trailing `=` (code 61). -/
def rstripEq (s : Str) : Str := (s.reverse.dropWhile (fun c => c == 61)).reverse

/-- UTF-8 encoding of a code-point string (Python `s.encode("utf-8")`). -/
def utf8Encode (s : Str) : List Nat :=
  s.flatMap (fun c =>
    if c < 128 then [c]
    else if c < 2048 then [192 + c / 64, 128 + c % 64]
    else if c < 65536 then [224 + c / 4096, 128 + c / 64 % 64, 128 + c % 64]
    else [240 + c / 262144, 128 + c / 4096 % 64, 128 + c / 64 % 64, 128 + c % 64])

/-- `PKCEAuthenticator.generate_pkce_pair`, parameterized over the
`hashlib.sha256` digest function and over the 48 random bytes returned by
`secrets.token_bytes(48)`: the verifier is the padding-stripped URL-safe
base64 of the random bytes, the challenge the padding-stripped URL-safe
base64 of the SHA-256 digest of the verifier's UTF-8 bytes. -/
def generate_pkce_pair (sha256 : List Nat → List Nat) (rnd : List Nat) : Str × Str :=
  let verifier := rstripEq (base64urlEncode rnd)
  let challenge := rstripEq (base64urlEncode (sha256 (utf8Encode verifier)))
  (verifier, challenge)

/-- Uppercase hex digit code, as used by `urllib.parse.quote`. -/
def hexUpper (n : Nat) : Nat := if n < 10 then 48 + n else 55 + n

/-- `urllib.parse.quote_plus` over one string: spaces become `+`, the
always-safe bytes (alphanumerics and `_.-~`) pass through, everything
else is percent-encoded per UTF-8 byte with uppercase hex. -/
def quotePlus (s : Str) : Str :=
  (utf8Encode s).flatMap (fun b =>
    if b = 32 then [43]
    else if (48 ≤ b ∧ b ≤ 57) ∨ (65 ≤ b ∧ b ≤ 90) ∨ (97 ≤ b ∧ b ≤ 122) ∨
            b = 95 ∨ b = 46 ∨ b = 45 ∨ b = 126 then [b]
    else [37, hexUpper (b / 16), hexUpper (b % 16)])

/-- Join strings with a single separator code. -/
def joinSep (sep : Nat) : List Str → Str
  | [] => []
  | [x] => x
  | x :: xs => x ++ sep :: joinSep sep xs

/-- `urllib.parse.urlencode(params)`: `quote_plus(k)=quote_plus(v)` pairs
joined by `&` (code 38); `=` is code 61. -/
def urlencode (params : List (Str × Str)) : Str :=
  joinSep 38 (params.map (fun p => quotePlus p.1 ++ 61 :: quotePlus p.2))

/-- `PKCEAuthenticator.build_authorization_url`: the fixed parameters
`response_type=code, client_id, redirect_uri, code_challenge,
code_challenge_method=S256`, then `scope` (space-joined, code 32) when
scopes are non-empty, then `state` when given, url-encoded after a `?`
(code 63). -/
def build_authorization_url (authorization_endpoint client_id : Str)
    (scopes : List Str) (redirect_uri code_challenge : Str)
    (state : Option Str) : Str :=
  let params :=
    [(strCodes ("response_type"), strCodes ("code")),
     (strCodes ("client_id"), client_id),
     (strCodes ("redirect_uri"), redirect_uri),
     (strCodes ("code_challenge"), code_challenge),
     (strCodes ("code_challenge_method"), strCodes ("S256"))]
    ++ (if scopes.isEmpty then [] else [(strCodes ("scope"), joinSep 32 scopes)])
    ++ (match state with
        | none => []
        | some st => [(strCodes ("state"), st)])
  authorization_endpoint ++ 63 :: urlencode params

/-! ## Registry client retry policy (src/src/deepmcpagent/registry.py,
`SmitheryAPIClient._retry_with_backoff` and its `search` / `get_server`
callers) -/

/-- The outcome of one attempted GET inside `_retry_with_backoff`:
success, an `httpx.TimeoutException`, an `httpx.NetworkError`, or an
`httpx.HTTPStatusError` raised by `response.raise_for_status()` for a
non-2xx status. -/
inductive FetchOutcome (α : Type) where
  | ok (val : α)
  | timeout
  | networkError
  | httpStatus (code : Nat) (body : Str)
deriving DecidableEq, Repr

/-- The transient outcomes (`httpx.TimeoutException, httpx.NetworkError`)
that `_retry_with_backoff` retries. -/
def FetchOutcome.transient {α : Type} : FetchOutcome α → Bool
  | FetchOutcome.timeout => true
  | FetchOutcome.networkError => true
  | _ => false

/-- What `_retry_with_backoff` can raise: a `RegistryError` after
exhausting `maxRetries` attempts on transient errors, or the re-raised
`httpx.HTTPStatusError` (never retried). -/
inductive RetryErr where
  | registry (attempts : Nat)
  | httpStatus (code : Nat) (body : Str)
deriving DecidableEq, Repr

/-- The `RegistryError` surfaced by `search` / `get_server`: a non-2xx
response wrapped with its status code and body text, or the re-wrapped
retry-exhaustion error. -/
inductive RegistryFailure where
  | httpError (code : Nat) (body : Str)
  | exhausted (attempts : Nat)
deriving DecidableEq, Repr

/-- The `for attempt in range(max_retries)` loop of
`_retry_with_backoff`, tracked as (result, attempts actually made, sleeps
performed). `remaining` counts the loop iterations left
(`maxRetries - attempt`); `attempt < max_retries - 1` is `0 < remaining`
at the body whose counter is `remaining + 1`. The backoff before retry
`attempt + 1` is `2 ** attempt` seconds. -/
def retryGo {α : Type} (maxRetries : Nat) (outcomes : Nat → FetchOutcome α) :
    Nat → Nat → List Nat → Except RetryErr α × Nat × List Nat
  | 0, attempt, sleeps => (Except.error (RetryErr.registry maxRetries), attempt, sleeps)
  | remaining + 1, attempt, sleeps =>
    match outcomes attempt with
    | FetchOutcome.ok v => (Except.ok v, attempt + 1, sleeps)
    | FetchOutcome.timeout =>
      if 0 < remaining then
        retryGo maxRetries outcomes remaining (attempt + 1) (sleeps ++ [2 ^ attempt])
      else (Except.error (RetryErr.registry maxRetries), attempt + 1, sleeps)
    | FetchOutcome.networkError =>
      if 0 < remaining then
        retryGo maxRetries outcomes remaining (attempt + 1) (sleeps ++ [2 ^ attempt])
      else (Except.error (RetryErr.registry maxRetries), attempt + 1, sleeps)
    | FetchOutcome.httpStatus code body =>
      (Except.error (RetryErr.httpStatus code body), attempt + 1, sleeps)

/-- `SmitheryAPIClient._retry_with_backoff` with the constructor default
`max_retries=3`, starting at attempt 0 with no sleeps performed. -/
def retryWithBackoff {α : Type} (outcomes : Nat → FetchOutcome α) :
    Except RetryErr α × Nat × List Nat :=
  retryGo 3 outcomes 3 0 []

/-- The shared wrapper of `search` and `get_server`: run the request
through `_retry_with_backoff`; an escaping `httpx.HTTPStatusError`
becomes a `RegistryError` carrying the response status code and body
text, and the retry-exhaustion `RegistryError` is re-wrapped by the
generic `except Exception` clause (still a `RegistryError`). -/
def registryCall {α : Type} (outcomes : Nat → FetchOutcome α) :
    Except RegistryFailure α × Nat × List Nat :=
  match retryWithBackoff outcomes with
  | (Except.ok v, a, s) => (Except.ok v, a, s)
  | (Except.error (RetryErr.httpStatus c b), a, s) =>
    (Except.error (RegistryFailure.httpError c b), a, s)
  | (Except.error (RetryErr.registry n), a, s) =>
    (Except.error (RegistryFailure.exhausted n), a, s)


/-! ## JSON serialization (modelling `json.dumps` / `json.loads` as used
by `TokenStore` in src/src/oneshotmcp/oauth.py, restricted to the token
mappings the store writes: objects of objects whose leaves are strings or
integers, `ensure_ascii` escaping, default `", "` / `": "` separators) -/

/-- A token-record value: a string or an integer. -/
inductive JVal where
  | str (s : Str)
  | num (i : Int)
deriving DecidableEq, Repr

/-- One server's token record (`{"access_token": ..., "expires_in": ...}`). -/
abbrev TokenRecord := List (Str × JVal)

/-- The full persisted mapping of server name to token record. -/
abbrev TokenMap := List (Str × TokenRecord)

/-- `c` is a Unicode scalar value: in range and not a surrogate. Python
`json` does not round-trip lone surrogates (a high/low pair of lone
surrogates is re-combined by `loads`), so the round-trip claims are
stated for scalar-valued strings, which is all the store ever holds. -/
def validCode (c : Nat) : Bool := c < 1114112 && !(55296 ≤ c && c ≤ 57343)

/-- Every code point of `s` is a Unicode scalar value. -/
def validStr (s : Str) : Bool := s.all validCode

/-- Validity of a token-record value. -/
def validJVal : JVal → Bool
  | JVal.str s => validStr s
  | JVal.num _ => true

/-- Validity of a token record. -/
def validRecord (r : TokenRecord) : Bool :=
  r.all (fun e => validStr e.1 && validJVal e.2)

/-- Validity of a token mapping. -/
def validMap (m : TokenMap) : Bool :=
  m.all (fun e => validStr e.1 && validRecord e.2)

/-- Lowercase hex digit code (`json.dumps` emits lowercase `\uXXXX`). -/
def hexLower (n : Nat) : Nat := if n < 10 then 48 + n else 87 + n

/-- The four lowercase hex digits of a code unit below 0x10000. -/
def uDigits (c : Nat) : Str :=
  [hexLower (c / 4096 % 16), hexLower (c / 256 % 16),
   hexLower (c / 16 % 16), hexLower (c % 16)]

/-- A `\uXXXX` escape for a code unit below 0x10000. -/
def uEscape (c : Nat) : Str := 92 :: 117 :: uDigits c

/-- `json.dumps` string escaping with `ensure_ascii=True` (the default
used by the store): short escapes for `"`, `\` and the C0 controls that
have them, `\uXXXX` for other controls and all non-ASCII code points,
surrogate pairs for the astral plane, everything in `0x20..0x7e` verbatim. -/
def escapeCode (c : Nat) : Str :=
  if c = 34 then [92, 34]
  else if c = 92 then [92, 92]
  else if c = 8 then [92, 98]
  else if c = 9 then [92, 116]
  else if c = 10 then [92, 110]
  else if c = 12 then [92, 102]
  else if c = 13 then [92, 114]
  else if c < 32 then uEscape c
  else if c < 127 then [c]
  else if c < 65536 then uEscape c
  else uEscape (55296 + (c - 65536) / 1024) ++ uEscape (56320 + (c - 65536) % 1024)

/-- Serialize a JSON string: `"` (code 34), the escaped body, `"`. -/
def serStr (s : Str) : Str := 34 :: (s.flatMap escapeCode ++ [34])

/-- Decimal digit codes of `n`, accumulator form. The fuel argument
makes the recursion structural (and kernel-computable); `natDigits`
passes `n + 1`, which always suffices since `n / 10 < n` for `n ≥ 10`. -/
def natDigitsAux : Nat → Nat → Str → Str
  | 0, _, acc => acc
  | fuel + 1, n, acc =>
    if n < 10 then (48 + n) :: acc
    else natDigitsAux fuel (n / 10) ((48 + n % 10) :: acc)

/-- Decimal digit codes of `n` (no leading zeros; `0` is `"0"`). -/
def natDigits (n : Nat) : Str := natDigitsAux (n + 1) n []

/-- `json.dumps` of an integer: optional `-` (code 45), then digits. -/
def serInt (i : Int) : Str :=
  if i < 0 then 45 :: natDigits i.natAbs else natDigits i.natAbs

/-- Serialize a token-record value. -/
def serJVal : JVal → Str
  | JVal.str s => serStr s
  | JVal.num i => serInt i

/-- The comma-joined body of a serialized record: entries as
`"key": value` joined by `", "` (codes 44, 32; `": "` is 58, 32). -/
def serRecEntries : TokenRecord → Str
  | [] => []
  | [(k, v)] => serStr k ++ 58 :: 32 :: serJVal v
  | (k, v) :: rest => serStr k ++ 58 :: 32 :: serJVal v ++ 44 :: 32 :: serRecEntries rest

/-- Serialize a token record as a JSON object (`{` is 123, `}` is 125). -/
def serRecord (r : TokenRecord) : Str := 123 :: (serRecEntries r ++ [125])

/-- The comma-joined body of the serialized top-level mapping. -/
def serMapEntries : TokenMap → Str
  | [] => []
  | [(k, r)] => serStr k ++ 58 :: 32 :: serRecord r
  | (k, r) :: rest => serStr k ++ 58 :: 32 :: serRecord r ++ 44 :: 32 :: serMapEntries rest

/-- `json.dumps` of the full token mapping. -/
def serMap (m : TokenMap) : Str := 123 :: (serMapEntries m ++ [125])

/-- Hex digit value accepted by the `json` scanner's `\uXXXX` decoder. -/
def hexVal (c : Nat) : Option Nat :=
  if 48 ≤ c ∧ c ≤ 57 then some (c - 48)
  else if 97 ≤ c ∧ c ≤ 102 then some (c - 87)
  else if 65 ≤ c ∧ c ≤ 70 then some (c - 55)
  else none

/-- The continuation after a `\uXXXX` high surrogate (CPython
`py_scanstring`): when the input continues with `\u` and four valid hex
digits in the low-surrogate range, combine the pair into one astral
code point; on `\u` with bad or missing hex, fail; otherwise keep the
lone high surrogate and rescan from the same position. -/
def parseLowSurrogate (recur : Str → Option (Str × Str)) (u : Nat) (rest3 : Str) :
    Option (Str × Str) :=
  match rest3 with
  | p :: q :: tail =>
    if p = 92 ∧ q = 117 then
      match tail with
      | a2 :: b2 :: c3 :: d2 :: rest4 =>
        match hexVal a2, hexVal b2, hexVal c3, hexVal d2 with
        | some wa, some wb, some wc, some wd =>
          let u2 := wa * 4096 + wb * 256 + wc * 16 + wd
          if 56320 ≤ u2 ∧ u2 ≤ 57343 then
            (recur rest4).map
              (fun pp => ((65536 + (u - 55296) * 1024 + (u2 - 56320)) :: pp.1, pp.2))
          else (recur (p :: q :: tail)).map (fun pp => (u :: pp.1, pp.2))
        | _, _, _, _ => none
      | _ => none
    else (recur (p :: q :: tail)).map (fun pp => (u :: pp.1, pp.2))
  | _ => (recur rest3).map (fun pp => (u :: pp.1, pp.2))

/-- The `\uXXXX` arm of the `json` string scanner (CPython
`py_scanstring`): four hex digits; a high surrogate hands over to
`parseLowSurrogate`. -/
def parseUEscape (recur : Str → Option (Str × Str)) : Str → Option (Str × Str)
  | a :: b :: c2 :: d :: rest3 =>
    match hexVal a, hexVal b, hexVal c2, hexVal d with
    | some va, some vb, some vc, some vd =>
      let u := va * 4096 + vb * 256 + vc * 16 + vd
      if 55296 ≤ u ∧ u ≤ 56319 then parseLowSurrogate recur u rest3
      else (recur rest3).map (fun p => (u :: p.1, p.2))
    | _, _, _, _ => none
  | _ => none

/-- One scanning step of the `json` string scanner, parameterized over
the recursive call (`parseStrBody` ties the knot with fuel): closing
quote, the short escapes, the `\uXXXX` path (`parseUEscape`), rejection
of raw control characters and unknown escapes, and plain characters. -/
def parseStrBodyF (recur : Str → Option (Str × Str)) : Str → Option (Str × Str)
  | [] => none
  | c :: rest =>
    if c = 34 then some ([], rest)
    else if c = 92 then
      match rest with
      | [] => none
      | e :: rest2 =>
        if e = 34 then (recur rest2).map (fun p => (34 :: p.1, p.2))
        else if e = 92 then (recur rest2).map (fun p => (92 :: p.1, p.2))
        else if e = 47 then (recur rest2).map (fun p => (47 :: p.1, p.2))
        else if e = 98 then (recur rest2).map (fun p => (8 :: p.1, p.2))
        else if e = 116 then (recur rest2).map (fun p => (9 :: p.1, p.2))
        else if e = 110 then (recur rest2).map (fun p => (10 :: p.1, p.2))
        else if e = 102 then (recur rest2).map (fun p => (12 :: p.1, p.2))
        else if e = 114 then (recur rest2).map (fun p => (13 :: p.1, p.2))
        else if e = 117 then parseUEscape recur rest2
        else none
    else if c < 32 then none
    else (recur rest).map (fun p => (c :: p.1, p.2))

/-- The `json` string scanner, after the opening quote (CPython
`json.decoder.py_scanstring` in strict mode): the fuel-indexed fixed
point of `parseStrBodyF`, returning the decoded body and the input
following the closing quote. Out of fuel means failure; callers pass
the input length, which always suffices since every step consumes at
least one code. -/
def parseStrBody : Nat → Str → Option (Str × Str)
  | 0, _ => none
  | fuel + 1, s => parseStrBodyF (parseStrBody fuel) s

/-- Consume a run of decimal digits, accumulating their value. -/
def parseDigits : Str → Nat → Nat × Str
  | [], acc => (acc, [])
  | c :: rest, acc =>
    if 48 ≤ c ∧ c ≤ 57 then parseDigits rest (acc * 10 + (c - 48))
    else (acc, c :: rest)

/-- Parse an optionally negated decimal integer off the front of the
input (the `json` number scanner restricted to the integers the
serializer emits). -/
def parseInt : Str → Option (Int × Str)
  | [] => none
  | c :: rest =>
    if c = 45 then
      match rest with
      | [] => none
      | d :: rest2 =>
        if 48 ≤ d ∧ d ≤ 57 then
          let p := parseDigits rest2 (d - 48)
          some (-(p.1 : Int), p.2)
        else none
    else if 48 ≤ c ∧ c ≤ 57 then
      let p := parseDigits rest (c - 48)
      some ((p.1 : Int), p.2)
    else none

/-- Parse a token-record value: a string when the next code is `"`, else
an integer. -/
def parseJVal (s : Str) : Option (JVal × Str) :=
  match s with
  | c :: rest =>
    if c = 34 then (parseStrBody rest.length rest).map (fun p => (JVal.str p.1, p.2))
    else (parseInt (c :: rest)).map (fun p => (JVal.num p.1, p.2))
  | [] => none

/-- Parse the non-empty entry list of a record object, consuming the
closing `}`. The fuel argument bounds the number of entries and makes
the recursion structural; callers pass at least the input length. -/
def parseRecEntries : Nat → Str → Option (TokenRecord × Str)
  | 0, _ => none
  | fuel + 1, s =>
    match s with
    | c :: rest =>
      if c = 34 then
        match parseStrBody rest.length rest with
        | some (k, rest2) =>
          match rest2 with
          | c1 :: c2 :: rest3 =>
            if c1 = 58 ∧ c2 = 32 then
              match parseJVal rest3 with
              | some (v, rest4) =>
                match rest4 with
                | c3 :: rest5 =>
                  if c3 = 125 then some ([(k, v)], rest5)
                  else if c3 = 44 then
                    match rest5 with
                    | c4 :: rest6 =>
                      if c4 = 32 then
                        match parseRecEntries fuel rest6 with
                        | some (es, r) => some ((k, v) :: es, r)
                        | none => none
                      else none
                    | [] => none
                  else none
                | [] => none
              | none => none
            else none
          | _ => none
        | none => none
      else none
    | [] => none

/-- Parse a record object: `{}` or `{` followed by entries. -/
def parseRecord (fuel : Nat) (s : Str) : Option (TokenRecord × Str) :=
  match s with
  | c :: rest =>
    if c = 123 then
      match rest with
      | c2 :: rest2 => if c2 = 125 then some ([], rest2) else parseRecEntries fuel rest
      | [] => none
    else none
  | [] => none

/-- Parse the non-empty entry list of the top-level mapping object,
consuming the closing `}`. -/
def parseMapEntries : Nat → Str → Option (TokenMap × Str)
  | 0, _ => none
  | fuel + 1, s =>
    match s with
    | c :: rest =>
      if c = 34 then
        match parseStrBody rest.length rest with
        | some (k, rest2) =>
          match rest2 with
          | c1 :: c2 :: rest3 =>
            if c1 = 58 ∧ c2 = 32 then
              match parseRecord (fuel + 1) rest3 with
              | some (r, rest4) =>
                match rest4 with
                | c3 :: rest5 =>
                  if c3 = 125 then some ([(k, r)], rest5)
                  else if c3 = 44 then
                    match rest5 with
                    | c4 :: rest6 =>
                      if c4 = 32 then
                        match parseMapEntries fuel rest6 with
                        | some (es, rst) => some ((k, r) :: es, rst)
                        | none => none
                      else none
                    | [] => none
                  else none
                | [] => none
              | none => none
            else none
          | _ => none
        | none => none
      else none
    | [] => none

/-- Parse the top-level mapping object. -/
def parseMap (s : Str) : Option (TokenMap × Str) :=
  match s with
  | c :: rest =>
    if c = 123 then
      match rest with
      | c2 :: rest2 => if c2 = 125 then some ([], rest2) else parseMapEntries s.length rest
      | [] => none
    else none
  | [] => none

/-- `json.loads` of the persisted mapping text: the parse must consume
the whole input (the serializer emits no surrounding whitespace). -/
def jsonLoadsMap (s : Str) : Option TokenMap :=
  match parseMap s with
  | some (m, []) => some m
  | _ => none

/-- Strict UTF-8 decoding (Python `bytes.decode("utf-8")`): rejects
stray continuation bytes, truncated sequences, overlong encodings,
surrogates, and out-of-range values. -/
def utf8DecodeF (recur : List Nat → Option Str) : List Nat → Option Str := fun s =>
  match s with
  | [] => some []
  | b :: rest =>
    if b < 128 then (recur rest).map (fun s => b :: s)
    else if b < 192 then none
    else if b < 224 then
      match rest with
      | b2 :: rest2 =>
        if 128 ≤ b2 ∧ b2 < 192 then
          let c := (b - 192) * 64 + (b2 - 128)
          if c < 128 then none else (recur rest2).map (fun s => c :: s)
        else none
      | [] => none
    else if b < 240 then
      match rest with
      | b2 :: b3 :: rest2 =>
        if (128 ≤ b2 ∧ b2 < 192) ∧ (128 ≤ b3 ∧ b3 < 192) then
          let c := (b - 224) * 4096 + (b2 - 128) * 64 + (b3 - 128)
          if c < 2048 ∨ (55296 ≤ c ∧ c ≤ 57343) then none
          else (recur rest2).map (fun s => c :: s)
        else none
      | _ => none
    else if b < 248 then
      match rest with
      | b2 :: b3 :: b4 :: rest2 =>
        if (128 ≤ b2 ∧ b2 < 192) ∧ (128 ≤ b3 ∧ b3 < 192) ∧ (128 ≤ b4 ∧ b4 < 192) then
          let c := (b - 240) * 262144 + (b2 - 128) * 4096 + (b3 - 128) * 64 + (b4 - 128)
          if c < 65536 ∨ 1114112 ≤ c then none
          else (recur rest2).map (fun s => c :: s)
        else none
      | _ => none
    else none

/-- Fuel-indexed driver for the decoder; each step consumes at least one
byte, so any fuel exceeding the input length suffices. -/
def utf8DecodeGo : Nat → List Nat → Option Str
  | 0, _ => none
  | fuel + 1, s => utf8DecodeF (utf8DecodeGo fuel) s

def utf8Decode (s : List Nat) : Option Str := utf8DecodeGo (s.length + 1) s

/-! ## TokenStore (src/src/oneshotmcp/oauth.py), parameterized over the
Fernet primitives `encF`/`decF` (the `cryptography` library is external;
its contract is `decF (encF b) = some b` under the active key, with
`none` modelling a raised decryption error). -/

/-- The `"created_at"` key injected by `save_tokens`. -/
def createdAtKey : Str := strCodes ("created_at")

/-- The on-disk state of one `TokenStore`: the token file's bytes, or
`none` when the file does not exist. -/
structure TokenStoreState where
  file : Option (List Nat)
deriving DecidableEq, Repr

/-- `TokenStore._encrypt`: `fernet.encrypt(json.dumps(data).encode("utf-8"))`. -/
def tsEncrypt (encF : List Nat → List Nat) (d : TokenMap) : List Nat :=
  encF (utf8Encode (serMap d))

/-- `TokenStore._decrypt`: Fernet-decrypt, UTF-8-decode, `json.loads`;
`none` models the wrapped `OAuthError` when any step fails. -/
def tsDecrypt (decF : List Nat → Option (List Nat)) (encrypted : List Nat) :
    Option TokenMap :=
  (decF encrypted).bind (fun bs => (utf8Decode bs).bind jsonLoadsMap)

/-- `TokenStore._load_all`: `{}` when the file does not exist, and `{}`
when reading or decrypting fails (the `except Exception` clause). -/
def loadAll (decF : List Nat → Option (List Nat)) (st : TokenStoreState) : TokenMap :=
  match st.file with
  | none => []
  | some bs => (tsDecrypt decF bs).getD []

/-- The `created_at` injection in `save_tokens`: added only when the
record does not already contain the key (appended, matching dict
insertion order), with `now = int(time.time())`. -/
def injectCreatedAt (t : TokenRecord) (now : Nat) : TokenRecord :=
  if hasKey t createdAtKey then t else t ++ [(createdAtKey, JVal.num (Int.ofNat now))]

/-- `TokenStore.save_tokens`: load all records, inject `created_at` when
absent, update the mapping at `server_name`, encrypt and write the file. -/
def save_tokens (encF : List Nat → List Nat) (decF : List Nat → Option (List Nat))
    (st : TokenStoreState) (server_name : Str) (tokens : TokenRecord)
    (now : Nat) : TokenStoreState :=
  let all_tokens := loadAll decF st
  let tokens' := injectCreatedAt tokens now
  let all' := updateAssoc all_tokens server_name tokens'
  { file := some (tsEncrypt encF all') }

/-- `TokenStore.get_tokens`: the stored record, or `none`. -/
def get_tokens (decF : List Nat → Option (List Nat)) (st : TokenStoreState)
    (server_name : Str) : Option TokenRecord :=
  lookupAssoc (loadAll decF st) server_name

/-- `TokenStore.list_servers`: all server names with stored tokens. -/
def list_servers (decF : List Nat → Option (List Nat)) (st : TokenStoreState) :
    List Str :=
  (loadAll decF st).map (fun e => e.1)

/-! ## Tool catalog cap (spec 4.6; `MAX_TOOLS_PER_SERVER` is declared in
src/src/oneshotmcp/config.py) -/

/-- `MAX_TOOLS_PER_SERVER` from src/src/oneshotmcp/config.py. -/
def MAX_TOOLS_PER_SERVER : Nat := 30

/-- Modelled from the spec: `MCPToolLoader.get_all_tools` of the
oneshotmcp tool catalog (the oneshotmcp `tools` module is not under
src/; only its caller `DynamicOrchestrator._rebuild_agent` and the
`MAX_TOOLS_PER_SERVER` constant are). Per server, at most
`MAX_TOOLS_PER_SERVER` tools are emitted and the tail is silently
dropped. Tools are represented by name, grouped per server. -/
def get_all_tools (serverTools : List (Str × List Str)) : List (Str × List Str) :=
  serverTools.map (fun e => (e.1, e.2.take MAX_TOOLS_PER_SERVER))

/-- Modelled from the spec: `MCPToolLoader.get_tool_stats`, reporting per
server the advertised `total` and the `loaded` (capped) count. -/
def get_tool_stats (serverTools : List (Str × List Str)) : List (Str × Nat × Nat) :=
  serverTools.map (fun e => (e.1, e.2.length, (e.2.take MAX_TOOLS_PER_SERVER).length))

/-! ## Orchestrator state and `chat` (src/src/oneshotmcp/orchestrator.py) -/

/-- Message roles appearing in the orchestrator's external history. -/
inductive Role where
  | user
  | assistant
deriving DecidableEq, Repr

/-- One entry of `self.messages`. -/
structure Msg where
  role : Role
  content : Str
deriving DecidableEq, Repr

/-- The fields of `DynamicOrchestrator`. The model, Smithery client,
graph, and loader handles are opaque (`Nat` identifiers); `graph` and
`loader` are `none` until the first build, like the Python `None`. -/
structure OrchState where
  model : Nat
  servers : List (Str × ServerSpec)
  tokenStore : TokenStoreState
  smithery : Nat
  instructions : Option Str
  verbose : Bool
  messages : List Msg
  graph : Option Nat
  loader : Option Nat
deriving DecidableEq, Repr

/-- `DynamicOrchestrator._rebuild_agent` on a successful
`build_deep_agent` call returning the pair `(graph, loader)`: only the
`graph` and `loader` fields are assigned. -/
def rebuildAgent (s : OrchState) (built : Nat × Nat) : OrchState :=
  { s with graph := some built.1, loader := some built.2 }

/-- Any number of successive `_rebuild_agent` calls. -/
def rebuildAgentMany (s : OrchState) (builds : List (Nat × Nat)) : OrchState :=
  builds.foldl rebuildAgent s

/-- The external collaborators and pure helper predicates `chat` drives,
abstracted as oracles. `extractExplicit`, `needsTools` and
`extractCapability` are the regex/keyword helpers of the orchestrator
(pure text predicates that gate branches and never touch state);
`discover` is `_discover_and_add_server`, whose call tree updates only
`self.servers` (via `_try_candidates` / `_handle_oauth_flow` /
`_try_local_installation`) and never writes `self.messages`;
`buildAgent` is `build_deep_agent` on the current server set;
`agentReply` is `graph.ainvoke` followed by the response-text
extraction. -/
structure ChatEnv where
  extractExplicit : Str → Option Str
  needsTools : Str → Bool
  extractCapability : Str → Option Str
  discover : List (Str × ServerSpec) → Str → Bool × List (Str × ServerSpec)
  buildAgent : List (Str × ServerSpec) → Nat × Nat
  agentReply : Nat → List Msg → Str

/-- The synthetic reply used when no servers are configured. -/
def noToolsReply : Str :=
  strCodes ("I don") ++ 39 :: strCodes ("t have access to any tools yet to help with this request.")

/-- The proactive-discovery phase of `chat` (orchestrator.py lines
887-901): on an explicit MCP request, run discovery (which updates the
server set) and rebuild the agent on success. -/
def chatProactive (env : ChatEnv) (s1 : OrchState) (user_message : Str) : OrchState :=
  match env.extractExplicit user_message with
  | some cap =>
    if (env.discover s1.servers cap).1 then
      rebuildAgent { s1 with servers := (env.discover s1.servers cap).2 }
        (env.buildAgent (env.discover s1.servers cap).2)
    else { s1 with servers := (env.discover s1.servers cap).2 }
  | none => s1

/-- The agent-invocation phase of `chat` (orchestrator.py lines
903-925): the synthetic no-tools reply when no servers are configured,
otherwise a lazy build when `graph is None` followed by the agent
invocation on the full history. -/
def chatInvoke (env : ChatEnv) (s2 : OrchState) : OrchState × Str :=
  if s2.servers.isEmpty then (s2, noToolsReply)
  else
    let s2' := if s2.graph.isNone then rebuildAgent s2 (env.buildAgent s2.servers) else s2
    (s2', env.agentReply (s2'.graph.getD 0) s2'.messages)

/-- The reactive-discovery phase of `chat` (orchestrator.py lines
930-967): when the assistant text signals missing tools and a capability
keyword is extractable from the user message, run discovery; on success
rebuild, pop the failed assistant message, re-invoke, and append the
replacement. -/
def chatReactive (env : ChatEnv) (s4 : OrchState) (user_message final_text : Str) :
    OrchState × Str :=
  if env.needsTools final_text then
    match env.extractCapability user_message with
    | some cap =>
      if (env.discover s4.servers cap).1 then
        let s6 := rebuildAgent { s4 with servers := (env.discover s4.servers cap).2 }
          (env.buildAgent (env.discover s4.servers cap).2)
        let s7 := { s6 with messages := s6.messages.dropLast }
        let text2 := env.agentReply (s7.graph.getD 0) s7.messages
        ({ s7 with messages := s7.messages ++ [Msg.mk Role.assistant text2] }, text2)
      else ({ s4 with servers := (env.discover s4.servers cap).2 }, final_text)
    | none => (s4, final_text)
  else (s4, final_text)

/-- `DynamicOrchestrator.chat`: append the user message; proactive
discovery; produce the assistant text; append the assistant message;
reactive discovery. Returns the final state and the returned text. -/
def chat (env : ChatEnv) (s : OrchState) (user_message : Str) : OrchState × Str :=
  let s1 := { s with messages := s.messages ++ [Msg.mk Role.user user_message] }
  let s2 := chatProactive env s1 user_message
  let step := chatInvoke env s2
  let s4 := { step.1 with messages := step.1.messages ++ [Msg.mk Role.assistant step.2] }
  chatReactive env s4 user_message step.2

/-! ## Auxiliary notions used by the theorem statements -/

/-- The numeric value of a decimal digit string (most significant first). -/
def digitsVal (ds : Str) : Nat := ds.foldl (fun a c => a * 10 + (c - 48)) 0

/-- The input does not continue with a decimal digit (the condition under
which the digit scanner stops exactly at a serialized number's end). -/
def headNotDigit : Str → Prop
  | [] => True
  | c :: _ => ¬(48 ≤ c ∧ c ≤ 57)

/-- An upper bound on the record sizes of a token mapping, used to
discharge the parser's fuel requirement. -/
def maxRecLen (m : TokenMap) : Nat :=
  m.foldr (fun e acc => max e.2.length acc) 0

/-- The concrete search-result list of the repository's own ranking test
(tests/test_orchestrator_ranking_fix.py, `test_rank_servers_filters_irrelevant`):
four candidates for the capability "vercel", two of them scoring 0. -/
def vercelCandidates : List Candidate :=
  [Candidate.mk (some (strCodes ("@cloudflare/playwright-mcp")))
     (some (strCodes ("playwright-mcp")))
     (some (strCodes ("Playwright MCP server for browser automation"))),
   Candidate.mk (some (strCodes ("@modelcontextprotocol/server-vercel")))
     (some (strCodes ("vercel")))
     (some (strCodes ("Vercel MCP server for deployment"))),
   Candidate.mk (some (strCodes ("@vercel/mcp-server")))
     (some (strCodes ("vercel-mcp")))
     (some (strCodes ("Official Vercel MCP server"))),
   Candidate.mk (some (strCodes ("@random/unrelated-server")))
     (some (strCodes ("random")))
     (some (strCodes ("Some random server")))]


/-! # Theorems -/

/-- Helper: the proactive-discovery phase never changes the message
history (discovery updates only the server set; rebuild updates only the
agent fields). -/
theorem chatProactive_messages (env : ChatEnv) (s : OrchState) (u : Str) :
    (chatProactive env s u).messages = s.messages := by
  unfold chatProactive
  split
  · split <;> simp [rebuildAgent]
  · rfl

/-- Helper: the invocation phase never changes the message history. -/
theorem chatInvoke_messages (env : ChatEnv) (s : OrchState) :
    (chatInvoke env s).1.messages = s.messages := by
  unfold chatInvoke
  split
  · rfl
  · split <;> simp [rebuildAgent]

/-- Helper: starting from a history ending in the assistant reply `t`,
the reactive phase either keeps the history or replaces that final
assistant message, and in every case the result's history is the base
followed by exactly the returned text as one assistant message. -/
theorem chatReactive_messages (env : ChatEnv) (s4 : OrchState) (u t : Str)
    (base : List Msg) (h : s4.messages = base ++ [Msg.mk Role.assistant t]) :
    (chatReactive env s4 u t).1.messages =
      base ++ [Msg.mk Role.assistant (chatReactive env s4 u t).2] := by
  unfold chatReactive
  split
  · split
    · split <;> simp [rebuildAgent, h, List.dropLast_concat]
    · exact h
  · exact h

/-- Claim C8: every `chat()` call that returns normally leaves the
history equal to the prior history, unchanged and in order, followed by
exactly the appended user message and exactly one final assistant
message carrying the returned text; the length grows by exactly 2. This
holds across the reactive-discovery path that pops the failed assistant
reply and appends its replacement. -/
theorem chat_appends_user_and_assistant (env : ChatEnv) (s : OrchState) (u : Str) :
    (chat env s u).1.messages =
      s.messages ++ [Msg.mk Role.user u, Msg.mk Role.assistant (chat env s u).2] ∧
    (chat env s u).1.messages.length = s.messages.length + 2 := by
  have key : (chat env s u).1.messages =
      s.messages ++ [Msg.mk Role.user u, Msg.mk Role.assistant (chat env s u).2] := by
    show (chatReactive env _ u _).1.messages = _
    rw [chatReactive_messages env _ u _ (s.messages ++ [Msg.mk Role.user u])
      (by rw [chatInvoke_messages, chatProactive_messages])]
    simp
    rfl
  exact ⟨key, by rw [key]; simp⟩

/-- Claim C9: `_rebuild_agent` replaces only the agent graph and tool
loader; across any number of calls the message history, server set,
token store, model, instructions, Smithery client, and verbose flag are
all left exactly unchanged. -/
theorem rebuild_agent_preserves_state (s : OrchState) (builds : List (Nat × Nat)) :
    (rebuildAgentMany s builds).messages = s.messages ∧
    (rebuildAgentMany s builds).servers = s.servers ∧
    (rebuildAgentMany s builds).tokenStore = s.tokenStore ∧
    (rebuildAgentMany s builds).model = s.model ∧
    (rebuildAgentMany s builds).instructions = s.instructions ∧
    (rebuildAgentMany s builds).smithery = s.smithery ∧
    (rebuildAgentMany s builds).verbose = s.verbose := by
  induction builds generalizing s with
  | nil => exact ⟨rfl, rfl, rfl, rfl, rfl, rfl, rfl⟩
  | cons b bs ih => exact ih (rebuildAgent s b)

/-- Claim C2: the tool catalog exposes at most `MAX_TOOLS_PER_SERVER`
(30) tools per server; a server advertising more has exactly the tail
beyond the cap dropped, and `get_tool_stats` reports the advertised
total together with the capped loaded count. -/
theorem tool_catalog_per_server_cap (serverTools : List (Str × List Str)) :
    (∀ p ∈ get_all_tools serverTools, p.2.length ≤ MAX_TOOLS_PER_SERVER) ∧
    (∀ e ∈ serverTools, (e.1, e.2.take MAX_TOOLS_PER_SERVER) ∈ get_all_tools serverTools) ∧
    (∀ e ∈ serverTools,
      (e.1, e.2.length, min MAX_TOOLS_PER_SERVER e.2.length) ∈ get_tool_stats serverTools) := by
  refine ⟨?_, ?_, ?_⟩
  · intro p hp
    rw [get_all_tools] at hp
    obtain ⟨e, _he, rfl⟩ := List.mem_map.mp hp
    simp [List.length_take]
  · intro e he
    exact List.mem_map.mpr ⟨e, he, rfl⟩
  · intro e he
    rw [get_tool_stats]
    refine List.mem_map.mpr ⟨e, he, ?_⟩
    simp [List.length_take, Nat.min_comm]

/-- Claim C1: evaluated on the repository's own ranking-fix test input
(capability "vercel", four candidates, two of score 0), `_rank_servers`
returns all four candidates — the zero-score `@cloudflare/playwright-mcp`
candidate (the list head) stays in the ranked result, whose score is 0 —
whereas the spec and tests/test_orchestrator_ranking_fix.py require all
score-0 candidates to be dropped (a ranked list of length 2). -/
theorem rank_servers_keeps_score_zero_candidates :
    (rankServers (strCodes ("vercel")) [] vercelCandidates).length = 4 ∧
    vercelCandidates.headD (Candidate.mk none none none) ∈
      rankServers (strCodes ("vercel")) [] vercelCandidates ∧
    calculateScore (strCodes ("vercel")) []
      (vercelCandidates.headD (Candidate.mk none none none)) = 0 := by decide

/-- Claim C10 counterexample: for package "@some/mcp-server" with the
single required field `token` declaring `envVar MCP_TOKEN`, and
`user_config = {token: secret-123}` (the repository's own installer test
input), the materialized spec carries `--token secret-123` among the CLI
args even though the field declares an envVar — contradicting the claim
that such fields are transported solely via the environment and do not
appear among the CLI args. -/
theorem local_installer_envvar_cli_counterexample :
    create_stdio_server_spec (fun _ => none) (strCodes ("@some/mcp-server"))
        [strCodes ("token")]
        [(strCodes ("token"), FieldProps.mk (some (strCodes ("MCP_TOKEN"))) none)]
        [(strCodes ("token"), strCodes ("secret-123"))] =
      Except.ok (StdioServerSpec.mk (strCodes ("npx"))
        [strCodes ("-y"), strCodes ("@some/mcp-server"), strCodes ("--token"),
         strCodes ("secret-123")]
        [(strCodes ("MCP_TOKEN"), strCodes ("secret-123"))] none true) ∧
    strCodes ("--token") ∈
      [strCodes ("-y"), strCodes ("@some/mcp-server"), strCodes ("--token"),
       strCodes ("secret-123")] := ⟨rfl, by decide⟩

/-- Claim C6: when the token file exists but its contents cannot be
decrypted (corruption, wrong key, or malformed payload), `get_tokens`
returns `none` and `list_servers` returns the empty list, instead of
raising. -/
theorem token_store_decrypt_failure_returns_empty
    (decF : List Nat → Option (List Nat)) (st : TokenStoreState) (bs : List Nat)
    (hfile : st.file = some bs) (hfail : tsDecrypt decF bs = none)
    (server_name : Str) :
    get_tokens decF st server_name = none ∧ list_servers decF st = [] := by
  simp [get_tokens, list_servers, loadAll, hfile, hfail, lookupAssoc]

/-- Witness for C6 at a concrete input: Fernet decryption succeeding on
a malformed JSON payload (`{A`), so that `json.loads` fails. -/
theorem token_store_decrypt_failure_returns_empty_witness :
    get_tokens (fun b => some b) (TokenStoreState.mk (some [123, 65])) (strCodes ("github")) = none ∧
    list_servers (fun b => some b) (TokenStoreState.mk (some [123, 65])) = [] :=
  token_store_decrypt_failure_returns_empty (fun b => some b)
    (TokenStoreState.mk (some [123, 65])) [123, 65] rfl (by decide) (strCodes ("github"))

/-- Claim C3: the oneshotmcp translation emits an `env` key exactly when
the subprocess env is non-empty and a `cwd` key exactly when `cwd` is
set; but on the cited deepmcpagent translation the claim fails — at the
spec `npx -y @foo/bar` with empty env and absent cwd it emits explicit
`"env": null` and `"cwd": null` entries (the bug that
tests/test_config_stdio_fix.py documents as fixed in the oneshotmcp
copy), while the oneshotmcp entry omits both keys. -/
theorem wire_config_env_cwd_null_divergence :
    (∀ s : StdioServerSpec,
       hasKey (oneshotStdioWireEntry s) (strCodes ("env")) = !s.env.isEmpty ∧
       hasKey (oneshotStdioWireEntry s) (strCodes ("cwd")) = s.cwd.isSome) ∧
    (lookupAssoc (deepmcpStdioWireEntry (StdioServerSpec.mk (strCodes ("npx"))
         [strCodes ("-y"), strCodes ("@foo/bar")] [] none true)) (strCodes ("env")) =
       some WireVal.null ∧
     lookupAssoc (deepmcpStdioWireEntry (StdioServerSpec.mk (strCodes ("npx"))
         [strCodes ("-y"), strCodes ("@foo/bar")] [] none true)) (strCodes ("cwd")) =
       some WireVal.null ∧
     hasKey (oneshotStdioWireEntry (StdioServerSpec.mk (strCodes ("npx"))
         [strCodes ("-y"), strCodes ("@foo/bar")] [] none true)) (strCodes ("env")) = false ∧
     hasKey (oneshotStdioWireEntry (StdioServerSpec.mk (strCodes ("npx"))
         [strCodes ("-y"), strCodes ("@foo/bar")] [] none true)) (strCodes ("cwd")) = false) := by
  constructor
  · rintro ⟨cm, ar, env, cwd, ka⟩
    cases env <;> cases cwd <;>
      simp [oneshotStdioWireEntry, hasKey, List.any_append] <;> decide
  · exact ⟨by decide, by decide, by decide, by decide⟩

/-- Helper: a transient fetch outcome is a timeout or a network error. -/
theorem transient_cases {α : Type} (o : FetchOutcome α) (h : o.transient = true) :
    o = FetchOutcome.timeout ∨ o = FetchOutcome.networkError := by
  cases o <;> simp_all [FetchOutcome.transient]

/-- Claim C7: registry GETs are retried only on transient errors, up to 3
total attempts with backoff sleeps of 1s then 2s, failing as a
RegistryError only after the third attempt; an HTTP non-2xx response is
never retried and surfaces immediately as a RegistryError carrying the
status code and body text; and a success after k < 3 transient failures
returns after exactly k backoff sleeps. -/
theorem registry_retry_policy {α : Type} (outcomes : Nat → FetchOutcome α) :
    ((∀ i, i < 3 → (outcomes i).transient = true) →
       registryCall outcomes = (Except.error (RegistryFailure.exhausted 3), 3, [1, 2])) ∧
    (∀ k, k < 3 → (∀ i, i < k → (outcomes i).transient = true) →
       ∀ code body, outcomes k = FetchOutcome.httpStatus code body →
       registryCall outcomes =
         (Except.error (RegistryFailure.httpError code body), k + 1,
          (List.range k).map (fun i => 2 ^ i))) ∧
    (∀ k, k < 3 → (∀ i, i < k → (outcomes i).transient = true) →
       ∀ v, outcomes k = FetchOutcome.ok v →
       registryCall outcomes = (Except.ok v, k + 1, (List.range k).map (fun i => 2 ^ i))) := by
  refine ⟨?_, ?_, ?_⟩
  · intro h
    rcases transient_cases _ (h 0 (by omega)) with h0 | h0 <;>
    rcases transient_cases _ (h 1 (by omega)) with h1 | h1 <;>
    rcases transient_cases _ (h 2 (by omega)) with h2 | h2 <;>
      simp [registryCall, retryWithBackoff, retryGo, h0, h1, h2]
  · intro k hk ht code body hcode
    interval_cases k
    · simp [registryCall, retryWithBackoff, retryGo, hcode]
    · rcases transient_cases _ (ht 0 (by omega)) with h0 | h0 <;>
        simp [registryCall, retryWithBackoff, retryGo, h0, hcode, List.range_succ]
    · rcases transient_cases _ (ht 0 (by omega)) with h0 | h0 <;>
      rcases transient_cases _ (ht 1 (by omega)) with h1 | h1 <;>
        simp [registryCall, retryWithBackoff, retryGo, h0, h1, hcode, List.range_succ]
  · intro k hk ht v hv
    interval_cases k
    · simp [registryCall, retryWithBackoff, retryGo, hv]
    · rcases transient_cases _ (ht 0 (by omega)) with h0 | h0 <;>
        simp [registryCall, retryWithBackoff, retryGo, h0, hv, List.range_succ]
    · rcases transient_cases _ (ht 0 (by omega)) with h0 | h0 <;>
      rcases transient_cases _ (ht 1 (by omega)) with h1 | h1 <;>
        simp [registryCall, retryWithBackoff, retryGo, h0, h1, hv, List.range_succ]

/-- Witness for C7: a 404 with body "Not Found" on the first attempt
surfaces immediately, with one attempt made and no backoff sleeps. -/
theorem registry_retry_policy_witness :
    registryCall (fun _ => (FetchOutcome.httpStatus 404 (strCodes ("Not Found")) : FetchOutcome Nat)) =
      (Except.error (RegistryFailure.httpError 404 (strCodes ("Not Found"))), 1, []) := by
  have h := (registry_retry_policy
      (fun _ => (FetchOutcome.httpStatus 404 (strCodes ("Not Found")) : FetchOutcome Nat))).2.1
    0 (by omega) (fun i hi => absurd hi (by omega)) 404 (strCodes ("Not Found")) rfl
  simpa using h


theorem b64Char_ne_pad (n : Nat) : b64Char n ≠ 61 := by
  unfold b64Char
  split_ifs <;> omega

theorem base64urlEncode_mod0 :
    ∀ bs : List Nat, bs.length % 3 = 0 →
      (base64urlEncode bs).length = 4 * (bs.length / 3) ∧
      ∀ c ∈ base64urlEncode bs, c ≠ 61
  | [], _ => by simp [base64urlEncode]
  | [b1], h => by simp at h
  | [b1, b2], h => by simp at h
  | b1 :: b2 :: b3 :: rest, h => by
    have hr : rest.length % 3 = 0 := by simp at h; omega
    have ih := base64urlEncode_mod0 rest hr
    constructor
    · simp [base64urlEncode, ih.1]
      omega
    · intro c hc
      simp [base64urlEncode] at hc
      rcases hc with rfl | rfl | rfl | rfl | hc
      · exact b64Char_ne_pad _
      · exact b64Char_ne_pad _
      · exact b64Char_ne_pad _
      · exact b64Char_ne_pad _
      · exact ih.2 c hc

theorem base64urlEncode_mod2 :
    ∀ bs : List Nat, bs.length % 3 = 2 →
      ∃ pre c, base64urlEncode bs = pre ++ [c, 61] ∧
        (∀ x ∈ pre, x ≠ 61) ∧ c ≠ 61 ∧ pre.length = 4 * (bs.length / 3) + 2
  | [], h => by simp at h
  | [b1], h => by simp at h
  | [b1, b2], _h => by
    refine ⟨[b64Char (b1 / 4), b64Char (b1 % 4 * 16 + b2 / 16)], b64Char (b2 % 16 * 4),
      rfl, ?_, b64Char_ne_pad _, by simp⟩
    intro x hx
    simp at hx
    rcases hx with rfl | rfl
    · exact b64Char_ne_pad _
    · exact b64Char_ne_pad _
  | b1 :: b2 :: b3 :: rest, h => by
    have hr : rest.length % 3 = 2 := by simp at h; omega
    obtain ⟨pre, c, henc, hpre, hc, hlen⟩ := base64urlEncode_mod2 rest hr
    refine ⟨b64Char (b1 / 4) :: b64Char (b1 % 4 * 16 + b2 / 16) ::
        b64Char (b2 % 16 * 4 + b3 / 64) :: b64Char (b3 % 64) :: pre, c, ?_, ?_, hc, ?_⟩
    · simp [base64urlEncode, henc]
    · intro x hx
      simp at hx
      rcases hx with rfl | rfl | rfl | rfl | hx
      · exact b64Char_ne_pad _
      · exact b64Char_ne_pad _
      · exact b64Char_ne_pad _
      · exact b64Char_ne_pad _
      · exact hpre x hx
    · simp [hlen]
      omega

theorem rstripEq_of_no_pad (s : Str) (h : ∀ c ∈ s, c ≠ 61) : rstripEq s = s := by
  unfold rstripEq
  cases hs : s.reverse with
  | nil => simp_all
  | cons a t =>
    have ha : a ≠ 61 := h a (by rw [← List.mem_reverse, hs]; simp)
    rw [List.dropWhile_cons]
    simp [ha, ← hs]

theorem rstripEq_append_pad (pre : Str) (c : Nat) (hc : c ≠ 61) :
    rstripEq (pre ++ [c, 61]) = pre ++ [c] := by
  unfold rstripEq
  rw [show pre ++ [c, 61] = (pre ++ [c]) ++ [61] by simp]
  rw [List.reverse_append]
  simp [List.dropWhile_cons, hc]

theorem isSubstr_nil_pat (l : Str) : isSubstr [] l = true := by
  cases l <;> simp [isSubstr, List.isPrefixOf]

theorem isPrefixOf_append_self (p b : Str) : p.isPrefixOf (p ++ b) = true := by
  induction p with
  | nil => simp [List.isPrefixOf]
  | cons c t ih => simp [List.isPrefixOf, ih]

theorem isSubstr_append_left (p b : Str) : isSubstr p (p ++ b) = true := by
  cases hp : p with
  | nil => simpa [hp] using isSubstr_nil_pat b
  | cons c t =>
    rw [← hp]
    have : p ++ b = c :: (t ++ b) := by rw [hp]; rfl
    rw [this, isSubstr]
    rw [← this, hp]
    simp [isPrefixOf_append_self (c :: t) b]

theorem isSubstr_append_right (p a b : Str) (h : isSubstr p b = true) :
    isSubstr p (a ++ b) = true := by
  induction a with
  | nil => simpa
  | cons c t ih => simp [isSubstr, ih]

theorem isSubstr_joinSep (sep : Nat) (l : List Str) (x : Str) (hx : x ∈ l) :
    isSubstr x (joinSep sep l) = true := by
  induction l with
  | nil => cases hx
  | cons y ys ih =>
    cases hx with
    | head =>
      cases ys with
      | nil => simpa [joinSep] using isSubstr_append_left x []
      | cons z zs => simpa [joinSep] using isSubstr_append_left x (sep :: joinSep sep (z :: zs))
    | tail _ hx =>
      cases ys with
      | nil => cases hx
      | cons z zs =>
        have : joinSep sep (y :: z :: zs) = (y ++ [sep]) ++ joinSep sep (z :: zs) := by
          simp [joinSep]
        rw [this]
        exact isSubstr_append_right x (y ++ [sep]) _ (ih hx)

/-- Claim C4: for every PKCE pair (v, c), c is the padding-stripped
URL-safe base64 of SHA-256(v) with len(c) = 43; v is the
padding-stripped URL-safe base64 of the 48 random bytes with
len(v) = 64, inside the required 43..128 range; and the authorization
URL built from the challenge carries `code_challenge_method=S256`.
SHA-256 itself is the external `hashlib` digest, abstracted as any
function producing 32 bytes. -/
theorem pkce_pair_spec (sha256 : List Nat → List Nat) (rnd : List Nat)
    (hsha : ∀ x, (sha256 x).length = 32) (hrnd : rnd.length = 48)
    (authorization_endpoint client_id redirect_uri : Str) (scopes : List Str)
    (state : Option Str) :
    (generate_pkce_pair sha256 rnd).2 =
      rstripEq (base64urlEncode (sha256 (utf8Encode (generate_pkce_pair sha256 rnd).1))) ∧
    (generate_pkce_pair sha256 rnd).2.length = 43 ∧
    (generate_pkce_pair sha256 rnd).1.length = 64 ∧
    43 ≤ (generate_pkce_pair sha256 rnd).1.length ∧
    (generate_pkce_pair sha256 rnd).1.length ≤ 128 ∧
    isSubstr (strCodes ("code_challenge_method=S256"))
      (build_authorization_url authorization_endpoint client_id scopes redirect_uri
        (generate_pkce_pair sha256 rnd).2 state) = true := by
  have hv : (generate_pkce_pair sha256 rnd).1.length = 64 := by
    have h0 := base64urlEncode_mod0 rnd (by omega)
    show (rstripEq (base64urlEncode rnd)).length = 64
    rw [rstripEq_of_no_pad _ h0.2, h0.1, hrnd]
  have hc : (generate_pkce_pair sha256 rnd).2.length = 43 := by
    obtain ⟨pre, c, henc, hpre, hcn, hlen⟩ :=
      base64urlEncode_mod2 (sha256 (utf8Encode (rstripEq (base64urlEncode rnd))))
        (by rw [hsha])
    show (rstripEq (base64urlEncode _)).length = 43
    rw [henc, rstripEq_append_pad pre c hcn]
    simp [hlen, hsha]
  refine ⟨rfl, hc, hv, by omega, by omega, ?_⟩
  unfold build_authorization_url
  refine isSubstr_append_right _ _ _ ?_
  rw [show (63 : Nat) :: urlencode _ = [63] ++ urlencode _ from rfl]
  refine isSubstr_append_right _ _ _ ?_
  unfold urlencode
  refine isSubstr_joinSep 38 _ _ ?_
  refine List.mem_map.mpr ⟨(strCodes ("code_challenge_method"), strCodes ("S256")), ?_, ?_⟩
  · simp
  · decide

/-- Witness for C4 at a concrete digest function and concrete random
bytes. -/
theorem pkce_pair_spec_witness :
    (generate_pkce_pair (fun _ => List.replicate 32 0) (List.replicate 48 0)).2.length = 43 ∧
    (generate_pkce_pair (fun _ => List.replicate 32 0) (List.replicate 48 0)).1.length = 64 := by
  have h := pkce_pair_spec (fun _ => List.replicate 32 0) (List.replicate 48 0)
    (fun _ => by simp) (by simp) (strCodes ("https://auth.example.com/authorize"))
    (strCodes ("oneshotmcp-cli")) (strCodes ("http://localhost:8765/callback")) [] none
  exact ⟨h.2.1, h.2.2.1⟩


/-- Helper: key membership as existence of a matching entry. -/
theorem hasKey_iff {α : Type} (m : List (Str × α)) (k : Str) :
    hasKey m k = true ↔ ∃ e ∈ m, e.1 = k := by
  simp [hasKey]

/-- Helper: an entry of an updated dict is the written pair or an
original entry. -/
theorem mem_updateAssoc {α : Type} (m : List (Str × α)) (k : Str) (v : α)
    (x : Str × α) (hx : x ∈ updateAssoc m k v) : x = (k, v) ∨ x ∈ m := by
  induction m with
  | nil => simpa [updateAssoc] using hx
  | cons e es ih =>
    rw [updateAssoc] at hx
    split at hx
    · cases hx with
      | head => exact Or.inl rfl
      | tail _ hx => exact Or.inr (List.mem_cons_of_mem e hx)
    · cases hx with
      | head => exact Or.inr (List.mem_cons_self e es)
      | tail _ hx =>
        rcases ih hx with h | h
        · exact Or.inl h
        · exact Or.inr (List.mem_cons_of_mem e h)

/-- Helper: a dict update binds its key. -/
theorem hasKey_updateAssoc_self {α : Type} (m : List (Str × α)) (k : Str) (v : α) :
    hasKey (updateAssoc m k v) k = true := by
  induction m with
  | nil => simp [updateAssoc, hasKey]
  | cons e es ih =>
    rw [updateAssoc]
    split
    · simp [hasKey]
    · simpa [hasKey] using Or.inr ((hasKey_iff _ _).mp ih)

/-- Helper: a dict update preserves existing keys. -/
theorem hasKey_updateAssoc_mono {α : Type} (m : List (Str × α)) (k k' : Str) (v : α)
    (h : hasKey m k' = true) : hasKey (updateAssoc m k v) k' = true := by
  induction m with
  | nil => simp [hasKey] at h
  | cons e es ih =>
    rw [updateAssoc]
    rcases (hasKey_iff (e :: es) k').mp h with ⟨x, hx, hxk⟩
    split
    · rename_i heq
      cases hx with
      | head =>
        have hkk : k = k' := by rw [← heq]; exact hxk
        simp [hasKey, hkk]
      | tail _ hx => exact (hasKey_iff _ _).mpr ⟨x, List.mem_cons_of_mem _ hx, hxk⟩
    · cases hx with
      | head => exact (hasKey_iff _ _).mpr ⟨_, List.mem_cons_self _ _, hxk⟩
      | tail _ hx =>
        have hes : hasKey es k' = true := (hasKey_iff _ _).mpr ⟨x, hx, hxk⟩
        simpa [hasKey] using Or.inr ((hasKey_iff _ _).mp (ih hes))

/-- Helper: the env-vars fold of `create_stdio_server_spec` binds the
envVar of every configured field declaring a non-empty one. -/
theorem installerEnvVars_step (properties : List (Str × FieldProps)) (l : List (Str × Str)) :
    ∀ (acc : List (Str × Str)) (ev : Str),
      ((∃ f v, (f, v) ∈ l ∧ propEnvVar properties f = some ev ∧ ev ≠ []) ∨
        hasKey acc ev = true) →
      hasKey (l.foldl (fun acc e =>
        match propEnvVar properties e.1 with
        | some evv => if evv.isEmpty then acc else updateAssoc acc evv e.2
        | none => acc) acc) ev = true := by
  induction l with
  | nil =>
    intro acc ev h
    rcases h with ⟨f, v, hm, _, _⟩ | h
    · cases hm
    · simpa using h
  | cons e es ih =>
    intro acc ev h
    rw [List.foldl_cons]
    rcases h with ⟨f, v, hm, hev, hne⟩ | h
    · cases hm with
      | head =>
        refine ih _ ev (Or.inr ?_)
        rw [hev]
        simpa [List.isEmpty_iff, hne] using hasKey_updateAssoc_self acc ev v
      | tail _ hm => exact ih _ ev (Or.inl ⟨f, v, hm, hev, hne⟩)
    · refine ih _ ev (Or.inr ?_)
      cases hpe : propEnvVar properties e.1 with
      | none => simpa using h
      | some evv =>
        simp only
        split
        · exact h
        · exact hasKey_updateAssoc_mono acc evv ev e.2 h

/-- Helper: every configured field with a non-empty envVar ends up
bound in the installer env mapping. -/
theorem installerEnvVars_hasKey (properties : List (Str × FieldProps))
    (user_config : List (Str × Str)) (f : Str) (v ev : Str)
    (hmem : (f, v) ∈ user_config) (hev : propEnvVar properties f = some ev)
    (hne : ev ≠ []) : hasKey (installerEnvVars properties user_config) ev = true :=
  installerEnvVars_step properties user_config [] ev (Or.inl ⟨f, v, hmem, hev, hne⟩)

/-- Helper (accumulator form): every binding of the installer env came
from a configured field declaring that envVar. -/
theorem installerEnvVars_source_aux (properties : List (Str × FieldProps))
    (l : List (Str × Str)) :
    ∀ (acc : List (Str × Str)) (ev w : Str),
      (ev, w) ∈ l.foldl (fun acc e =>
        match propEnvVar properties e.1 with
        | some evv => if evv.isEmpty then acc else updateAssoc acc evv e.2
        | none => acc) acc →
      (ev, w) ∈ acc ∨ ∃ f, (f, w) ∈ l ∧ propEnvVar properties f = some ev ∧ ev ≠ [] := by
  induction l with
  | nil => intro acc ev w h; exact Or.inl h
  | cons e es ih =>
    intro acc ev w h
    rw [List.foldl_cons] at h
    rcases ih _ ev w h with hacc | ⟨f, hm, hev, hne⟩
    · revert hacc
      cases hpe : propEnvVar properties e.1 with
      | none =>
        intro hacc
        exact Or.inl hacc
      | some evv =>
        simp only
        split
        · intro hacc
          exact Or.inl hacc
        · intro hacc
          rcases mem_updateAssoc acc evv e.2 (ev, w) hacc with heq | hacc
          · right
            refine ⟨e.1, ?_, ?_, ?_⟩
            · rw [show w = e.2 from congrArg Prod.snd heq]
              exact List.mem_cons_self _ _
            · rw [hpe, show ev = evv from congrArg Prod.fst heq]
            · rw [show ev = evv from congrArg Prod.fst heq]
              rename_i hemp
              simpa [List.isEmpty_iff] using hemp
          · exact Or.inl hacc
    · exact Or.inr ⟨f, List.mem_cons_of_mem e hm, hev, hne⟩

/-- Helper: every binding of the installer env came from a configured
field declaring that envVar, with that field value. -/
theorem installerEnvVars_source (properties : List (Str × FieldProps))
    (user_config : List (Str × Str)) (ev w : Str)
    (h : (ev, w) ∈ installerEnvVars properties user_config) :
    ∃ f, (f, w) ∈ user_config ∧ propEnvVar properties f = some ev ∧ ev ≠ [] := by
  rcases installerEnvVars_source_aux properties user_config [] ev w h with hc | h2
  · cases hc
  · exact h2

/-- Claim C10 as amended: the materialized subprocess spec has command
npx, args beginning with -y and the package followed by a kebab-case
flag and value for every configured field present in properties,
including fields that declare an envVar (the counterexample forces
this: the source emits the CLI flag for envVar fields too), keep_alive
true and no working directory; every configured field declaring a
non-empty envVar is additionally transported via the subprocess
environment under its envVar name, and the environment holds nothing
else. -/
theorem local_installer_spec_amended (osEnv : Str → Option Str) (package_name : Str)
    (required : List Str) (properties : List (Str × FieldProps))
    (user_config : List (Str × Str)) (sp : StdioServerSpec)
    (h : create_stdio_server_spec osEnv package_name required properties user_config =
      Except.ok sp) :
    sp.command = strCodes ("npx") ∧
    sp.keep_alive = true ∧
    sp.cwd = none ∧
    sp.args = strCodes ("-y") :: package_name ::
      user_config.flatMap (fun e =>
        if hasKey properties e.1 then [kebabFlag e.1, e.2] else []) ∧
    (∀ f v, (f, v) ∈ user_config → hasKey properties f = true → kebabFlag f ∈ sp.args) ∧
    (∀ f v ev, (f, v) ∈ user_config → propEnvVar properties f = some ev → ev ≠ [] →
      hasKey sp.env ev = true) ∧
    (∀ ev w, (ev, w) ∈ sp.env →
      ∃ f, (f, w) ∈ user_config ∧ propEnvVar properties f = some ev ∧ ev ≠ []) := by
  unfold create_stdio_server_spec build_npx_command at h
  split at h
  case h_1 => simp at h
  case h_2 cmd heq =>
    split at heq
    case isFalse => cases heq
    case isTrue =>
      injection heq with heq2
      subst heq2
      injection h with h2
      subst h2
      refine ⟨rfl, rfl, rfl, rfl, ?_, ?_, ?_⟩
      · intro f v hm hk
        refine List.mem_cons_of_mem _ (List.mem_cons_of_mem _ ?_)
        exact List.mem_flatMap.mpr ⟨(f, v), hm, by simp [hk]⟩
      · intro f v ev hm hev hne
        exact installerEnvVars_hasKey properties user_config f v ev hm hev hne
      · intro ev w hw
        exact installerEnvVars_source properties user_config ev w hw

/-- Witness for the amended C10 at the counterexample input. -/
theorem local_installer_spec_amended_witness :
    kebabFlag (strCodes ("token")) ∈
      (StdioServerSpec.mk (strCodes ("npx"))
        [strCodes ("-y"), strCodes ("@some/mcp-server"), strCodes ("--token"),
         strCodes ("secret-123")]
        [(strCodes ("MCP_TOKEN"), strCodes ("secret-123"))] none true).args ∧
    hasKey (StdioServerSpec.mk (strCodes ("npx"))
        [strCodes ("-y"), strCodes ("@some/mcp-server"), strCodes ("--token"),
         strCodes ("secret-123")]
        [(strCodes ("MCP_TOKEN"), strCodes ("secret-123"))] none true).env
      (strCodes ("MCP_TOKEN")) = true := by
  have h := local_installer_spec_amended (fun _ => none) (strCodes ("@some/mcp-server"))
    [strCodes ("token")]
    [(strCodes ("token"), FieldProps.mk (some (strCodes ("MCP_TOKEN"))) none)]
    [(strCodes ("token"), strCodes ("secret-123"))]
    (StdioServerSpec.mk (strCodes ("npx"))
      [strCodes ("-y"), strCodes ("@some/mcp-server"), strCodes ("--token"),
       strCodes ("secret-123")]
      [(strCodes ("MCP_TOKEN"), strCodes ("secret-123"))] none true)
    rfl
  refine ⟨?_, ?_⟩
  · exact h.2.2.2.2.1 (strCodes ("token")) (strCodes ("secret-123")) (by decide) (by decide)
  · exact h.2.2.2.2.2.1 (strCodes ("token")) (strCodes ("secret-123"))
      (strCodes ("MCP_TOKEN")) (by decide) (by decide) (by decide)


theorem hexVal_hexLower (n : Nat) (h : n < 16) : hexVal (hexLower n) = some n := by
  interval_cases n <;> decide

theorem parseStrBody_succ (f : Nat) (s : Str) :
    parseStrBody (f + 1) s = parseStrBodyF (parseStrBody f) s := rfl

theorem parseStrBody_quote (f : Nat) (rest : Str) :
    parseStrBody (f + 1) (34 :: rest) = some ([], rest) := by
  rw [parseStrBody_succ]
  simp [parseStrBodyF]

theorem parseStrBody_plain (f c : Nat) (rest : Str) (h1 : c ≠ 34) (h2 : c ≠ 92)
    (h3 : 32 ≤ c) :
    parseStrBody (f + 1) (c :: rest) =
      (parseStrBody f rest).map (fun p => (c :: p.1, p.2)) := by
  rw [parseStrBody_succ]
  simp [parseStrBodyF, h1, h2, Nat.not_lt.mpr h3]

theorem parseStrBody_esc34 (f : Nat) (rest : Str) :
    parseStrBody (f + 1) (92 :: 34 :: rest) =
      (parseStrBody f rest).map (fun p => (34 :: p.1, p.2)) := by
  rw [parseStrBody_succ]
  simp [parseStrBodyF]

theorem parseStrBody_esc92 (f : Nat) (rest : Str) :
    parseStrBody (f + 1) (92 :: 92 :: rest) =
      (parseStrBody f rest).map (fun p => (92 :: p.1, p.2)) := by
  rw [parseStrBody_succ]
  simp [parseStrBodyF]

theorem parseStrBody_esc98 (f : Nat) (rest : Str) :
    parseStrBody (f + 1) (92 :: 98 :: rest) =
      (parseStrBody f rest).map (fun p => (8 :: p.1, p.2)) := by
  rw [parseStrBody_succ]
  simp [parseStrBodyF]

theorem parseStrBody_esc116 (f : Nat) (rest : Str) :
    parseStrBody (f + 1) (92 :: 116 :: rest) =
      (parseStrBody f rest).map (fun p => (9 :: p.1, p.2)) := by
  rw [parseStrBody_succ]
  simp [parseStrBodyF]

theorem parseStrBody_esc110 (f : Nat) (rest : Str) :
    parseStrBody (f + 1) (92 :: 110 :: rest) =
      (parseStrBody f rest).map (fun p => (10 :: p.1, p.2)) := by
  rw [parseStrBody_succ]
  simp [parseStrBodyF]

theorem parseStrBody_esc102 (f : Nat) (rest : Str) :
    parseStrBody (f + 1) (92 :: 102 :: rest) =
      (parseStrBody f rest).map (fun p => (12 :: p.1, p.2)) := by
  rw [parseStrBody_succ]
  simp [parseStrBodyF]

theorem parseStrBody_esc114 (f : Nat) (rest : Str) :
    parseStrBody (f + 1) (92 :: 114 :: rest) =
      (parseStrBody f rest).map (fun p => (13 :: p.1, p.2)) := by
  rw [parseStrBody_succ]
  simp [parseStrBodyF]

theorem parseStrBody_u (f : Nat) (rest2 : Str) :
    parseStrBody (f + 1) (92 :: 117 :: rest2) =
      parseUEscape (parseStrBody f) rest2 := by
  rw [parseStrBody_succ]
  simp [parseStrBodyF]

theorem parseUEscape_nonsurr (recur : Str → Option (Str × Str)) (c : Nat) (rest : Str)
    (hc : c < 65536) (hns : ¬(55296 ≤ c ∧ c ≤ 57343)) :
    parseUEscape recur (uDigits c ++ rest) =
      (recur rest).map (fun p => (c :: p.1, p.2)) := by
  have e1 : c / 4096 % 16 < 16 := Nat.mod_lt _ (by omega)
  have e2 : c / 256 % 16 < 16 := Nat.mod_lt _ (by omega)
  have e3 : c / 16 % 16 < 16 := Nat.mod_lt _ (by omega)
  have e4 : c % 16 < 16 := Nat.mod_lt _ (by omega)
  have hval : c / 4096 % 16 * 4096 + c / 256 % 16 * 256 + c / 16 % 16 * 16 + c % 16 = c := by
    omega
  simp only [uDigits, List.cons_append, List.nil_append]
  rw [parseUEscape]
  simp only [hexVal_hexLower _ e1, hexVal_hexLower _ e2, hexVal_hexLower _ e3,
    hexVal_hexLower _ e4]
  simp only [hval]
  rw [if_neg (show ¬(55296 ≤ c ∧ c ≤ 56319) from by omega)]

theorem parseUEscape_surr (recur : Str → Option (Str × Str)) (c : Nat) (rest : Str)
    (h1 : 65536 ≤ c) (h2 : c < 1114112) :
    parseUEscape recur
      (uDigits (55296 + (c - 65536) / 1024) ++
        (92 :: 117 :: (uDigits (56320 + (c - 65536) % 1024) ++ rest))) =
      (recur rest).map (fun p => (c :: p.1, p.2)) := by
  set hi := 55296 + (c - 65536) / 1024 with hhi
  set lo := 56320 + (c - 65536) % 1024 with hlo
  have e1 : hi / 4096 % 16 < 16 := Nat.mod_lt _ (by omega)
  have e2 : hi / 256 % 16 < 16 := Nat.mod_lt _ (by omega)
  have e3 : hi / 16 % 16 < 16 := Nat.mod_lt _ (by omega)
  have e4 : hi % 16 < 16 := Nat.mod_lt _ (by omega)
  have g1 : lo / 4096 % 16 < 16 := Nat.mod_lt _ (by omega)
  have g2 : lo / 256 % 16 < 16 := Nat.mod_lt _ (by omega)
  have g3 : lo / 16 % 16 < 16 := Nat.mod_lt _ (by omega)
  have g4 : lo % 16 < 16 := Nat.mod_lt _ (by omega)
  have hvalhi : hi / 4096 % 16 * 4096 + hi / 256 % 16 * 256 + hi / 16 % 16 * 16 + hi % 16 = hi := by
    omega
  have hvallo : lo / 4096 % 16 * 4096 + lo / 256 % 16 * 256 + lo / 16 % 16 * 16 + lo % 16 = lo := by
    omega
  have hs : 55296 ≤ hi ∧ hi ≤ 56319 := by omega
  have hs2 : 56320 ≤ lo ∧ lo ≤ 57343 := by omega
  have hcomb : 65536 + (hi - 55296) * 1024 + (lo - 56320) = c := by omega
  simp only [uDigits, List.cons_append, List.nil_append]
  rw [parseUEscape]
  simp only [hexVal_hexLower _ e1, hexVal_hexLower _ e2, hexVal_hexLower _ e3,
    hexVal_hexLower _ e4]
  simp only [hvalhi]
  rw [if_pos hs]
  rw [parseLowSurrogate]
  rw [if_pos (show (92 : Nat) = 92 ∧ (117 : Nat) = 117 from ⟨rfl, rfl⟩)]
  simp only [hexVal_hexLower _ g1, hexVal_hexLower _ g2, hexVal_hexLower _ g3,
    hexVal_hexLower _ g4]
  simp only [hvallo]
  rw [if_pos hs2, hcomb]

theorem parseStrBody_uEscape (f c : Nat) (rest : Str) (hc : c < 65536)
    (hns : ¬(55296 ≤ c ∧ c ≤ 57343)) :
    parseStrBody (f + 1) (uEscape c ++ rest) =
      (parseStrBody f rest).map (fun p => (c :: p.1, p.2)) := by
  rw [show uEscape c ++ rest = 92 :: 117 :: (uDigits c ++ rest) from rfl,
    parseStrBody_u]
  exact parseUEscape_nonsurr _ c rest hc hns

theorem parseStrBody_surrogatePair (f c : Nat) (rest : Str) (h1 : 65536 ≤ c)
    (h2 : c < 1114112) :
    parseStrBody (f + 1)
      (uEscape (55296 + (c - 65536) / 1024) ++
        (uEscape (56320 + (c - 65536) % 1024) ++ rest)) =
      (parseStrBody f rest).map (fun p => (c :: p.1, p.2)) := by
  rw [show uEscape (55296 + (c - 65536) / 1024) ++
      (uEscape (56320 + (c - 65536) % 1024) ++ rest) =
      92 :: 117 :: (uDigits (55296 + (c - 65536) / 1024) ++
        (92 :: 117 :: (uDigits (56320 + (c - 65536) % 1024) ++ rest))) by
    simp [uEscape], parseStrBody_u]
  exact parseUEscape_surr _ c rest h1 h2


set_option maxHeartbeats 1000000 in
theorem escapeCode_length_pos (c : Nat) : 1 ≤ (escapeCode c).length := by
  rw [escapeCode]
  split_ifs <;> simp [uEscape, uDigits]

theorem parseStrBody_escBody :
    ∀ (s : Str), validStr s = true → ∀ (rest : Str) (fuel : Nat),
      (s.flatMap escapeCode ++ 34 :: rest).length ≤ fuel →
      parseStrBody fuel (s.flatMap escapeCode ++ 34 :: rest) = some (s, rest) := by
  intro s
  induction s with
  | nil =>
    intro _ rest fuel hf
    simp only [List.length_append, List.length_cons, List.flatMap_nil, List.length_nil] at hf
    obtain ⟨f, rfl⟩ : ∃ f, fuel = f + 1 := ⟨fuel - 1, by omega⟩
    simpa using parseStrBody_quote f rest
  | cons c s' ih =>
    intro hv rest fuel hf
    rw [validStr, List.all_cons, Bool.and_eq_true] at hv
    have hvc : validCode c = true := hv.1
    have hvs : validStr s' = true := hv.2
    rw [validCode, Bool.and_eq_true] at hvc
    have hc1 : c < 1114112 := by simpa using hvc.1
    have hc2 : ¬(55296 ≤ c ∧ c ≤ 57343) := by
      have h2 := hvc.2
      simp at h2
      omega
    rw [List.flatMap_cons, List.append_assoc] at hf ⊢
    have hlen : (escapeCode c).length + (s'.flatMap escapeCode ++ 34 :: rest).length ≤ fuel := by
      simpa [List.length_append] using hf
    have hpos := escapeCode_length_pos c
    obtain ⟨f, rfl⟩ : ∃ f, fuel = f + 1 := ⟨fuel - 1, by omega⟩
    have hftail : (s'.flatMap escapeCode ++ 34 :: rest).length ≤ f := by omega
    have hrec := ih hvs rest f hftail
    by_cases h34 : c = 34
    · subst h34
      rw [show escapeCode 34 = [92, 34] from rfl, List.cons_append, List.singleton_append,
        parseStrBody_esc34, hrec]
      rfl
    by_cases h92 : c = 92
    · subst h92
      rw [show escapeCode 92 = [92, 92] from rfl, List.cons_append, List.singleton_append,
        parseStrBody_esc92, hrec]
      rfl
    by_cases h8 : c = 8
    · subst h8
      rw [show escapeCode 8 = [92, 98] from rfl, List.cons_append, List.singleton_append,
        parseStrBody_esc98, hrec]
      rfl
    by_cases h9 : c = 9
    · subst h9
      rw [show escapeCode 9 = [92, 116] from rfl, List.cons_append, List.singleton_append,
        parseStrBody_esc116, hrec]
      rfl
    by_cases h10 : c = 10
    · subst h10
      rw [show escapeCode 10 = [92, 110] from rfl, List.cons_append, List.singleton_append,
        parseStrBody_esc110, hrec]
      rfl
    by_cases h12 : c = 12
    · subst h12
      rw [show escapeCode 12 = [92, 102] from rfl, List.cons_append, List.singleton_append,
        parseStrBody_esc102, hrec]
      rfl
    by_cases h13 : c = 13
    · subst h13
      rw [show escapeCode 13 = [92, 114] from rfl, List.cons_append, List.singleton_append,
        parseStrBody_esc114, hrec]
      rfl
    by_cases hctl : c < 32
    · have hesc : escapeCode c = uEscape c := by
        unfold escapeCode
        split_ifs
        rfl
      rw [hesc, parseStrBody_uEscape f c _ (by omega) (by omega), hrec]
      rfl
    by_cases hascii : c < 127
    · have hesc : escapeCode c = [c] := by
        unfold escapeCode
        split_ifs
        rfl
      rw [hesc, List.singleton_append, parseStrBody_plain f c _ h34 h92 (by omega), hrec]
      rfl
    by_cases hbmp : c < 65536
    · have hesc : escapeCode c = uEscape c := by
        unfold escapeCode
        split_ifs
        rfl
      rw [hesc, parseStrBody_uEscape f c _ (by omega) hc2, hrec]
      rfl
    · have hesc : escapeCode c =
          uEscape (55296 + (c - 65536) / 1024) ++ uEscape (56320 + (c - 65536) % 1024) := by
        unfold escapeCode
        split_ifs
        rfl
      rw [hesc, List.append_assoc,
        parseStrBody_surrogatePair f c _ (by omega) hc1, hrec]
      rfl

theorem parseStrBody_serStr (s : Str) (hv : validStr s = true) (rest : Str) (fuel : Nat)
    (hf : (s.flatMap escapeCode ++ 34 :: rest).length ≤ fuel) :
    parseStrBody fuel (s.flatMap escapeCode ++ 34 :: rest) = some (s, rest) :=
  parseStrBody_escBody s hv rest fuel hf


theorem parseDigits_digits (ds : Str) (hds : ∀ x ∈ ds, 48 ≤ x ∧ x ≤ 57) (rest : Str)
    (acc : Nat) :
    parseDigits (ds ++ rest) acc =
      parseDigits rest (ds.foldl (fun a x => a * 10 + (x - 48)) acc) := by
  induction ds generalizing acc with
  | nil => rfl
  | cons x ds ih =>
    have hx := hds x (List.mem_cons_self x ds)
    rw [List.cons_append, parseDigits, if_pos hx, List.foldl_cons]
    exact ih (fun y hy => hds y (List.mem_cons_of_mem x hy)) _

theorem parseDigits_stop (rest : Str) (h : headNotDigit rest) (acc : Nat) :
    parseDigits rest acc = (acc, rest) := by
  cases rest with
  | nil => rfl
  | cons c t =>
    rw [headNotDigit] at h
    rw [parseDigits, if_neg h]

theorem foldl_digits_acc (ds : Str) (a : Nat) :
    ds.foldl (fun acc x => acc * 10 + (x - 48)) a =
      a * 10 ^ ds.length + digitsVal ds := by
  induction ds generalizing a with
  | nil => simp [digitsVal]
  | cons x ds ih =>
    have hv : digitsVal (x :: ds) = (x - 48) * 10 ^ ds.length + digitsVal ds := by
      rw [digitsVal, List.foldl_cons]
      simpa using ih (x - 48)
    rw [List.foldl_cons, ih, hv, List.length_cons, pow_succ]
    ring

theorem natDigitsAux_fuel_eq :
    ∀ (n : Nat), ∀ (fuel fuel' : Nat) (acc : Str), n < fuel → n < fuel' →
      natDigitsAux fuel n acc = natDigitsAux fuel' n acc := by
  intro n
  induction n using Nat.strong_induction_on with
  | _ n ih =>
    intro fuel fuel' acc hf hf'
    obtain ⟨f, rfl⟩ : ∃ f, fuel = f + 1 := ⟨fuel - 1, by omega⟩
    obtain ⟨f', rfl⟩ : ∃ f2, fuel' = f2 + 1 := ⟨fuel' - 1, by omega⟩
    by_cases h10 : n < 10
    · rw [natDigitsAux, if_pos h10, natDigitsAux, if_pos h10]
    · rw [natDigitsAux, if_neg h10, natDigitsAux, if_neg h10]
      exact ih (n / 10) (by omega) f f' _ (by omega) (by omega)

theorem natDigitsAux_acc :
    ∀ (n : Nat), ∀ (fuel : Nat) (acc : Str), n < fuel →
      natDigitsAux fuel n acc = natDigitsAux fuel n [] ++ acc := by
  intro n
  induction n using Nat.strong_induction_on with
  | _ n ih =>
    intro fuel acc hf
    obtain ⟨f, rfl⟩ : ∃ f, fuel = f + 1 := ⟨fuel - 1, by omega⟩
    by_cases h10 : n < 10
    · rw [natDigitsAux, if_pos h10, natDigitsAux, if_pos h10]
      rfl
    · rw [natDigitsAux, if_neg h10, natDigitsAux, if_neg h10]
      rw [ih (n / 10) (by omega) f ((48 + n % 10) :: acc) (by omega),
        ih (n / 10) (by omega) f [48 + n % 10] (by omega), List.append_assoc]
      rfl

theorem natDigitsAux_all_digits :
    ∀ (fuel n : Nat) (acc : Str), n < fuel → (∀ x ∈ acc, 48 ≤ x ∧ x ≤ 57) →
      ∀ x ∈ natDigitsAux fuel n acc, 48 ≤ x ∧ x ≤ 57 := by
  intro fuel
  induction fuel with
  | zero => intro n acc hn; omega
  | succ f ih =>
    intro n acc hn hacc
    by_cases h10 : n < 10
    · rw [natDigitsAux, if_pos h10]
      intro x hx
      rcases List.mem_cons.mp hx with rfl | hx
      · omega
      · exact hacc x hx
    · rw [natDigitsAux, if_neg h10]
      refine ih (n / 10) _ (by omega) ?_
      intro x hx
      rcases List.mem_cons.mp hx with rfl | hx
      · omega
      · exact hacc x hx

theorem natDigitsAux_length :
    ∀ (fuel n : Nat) (acc : Str), n < fuel →
      acc.length + 1 ≤ (natDigitsAux fuel n acc).length := by
  intro fuel
  induction fuel with
  | zero => intro n acc hn; omega
  | succ f ih =>
    intro n acc hn
    by_cases h10 : n < 10
    · rw [natDigitsAux, if_pos h10]
      simp
    · rw [natDigitsAux, if_neg h10]
      have := ih (n / 10) ((48 + n % 10) :: acc) (by omega)
      simp at this
      omega

theorem digitsVal_append_one (xs : Str) (c : Nat) :
    digitsVal (xs ++ [c]) = digitsVal xs * 10 + (c - 48) := by
  simp [digitsVal, List.foldl_append]

theorem digitsVal_natDigits : ∀ (n : Nat), digitsVal (natDigits n) = n := by
  intro n
  induction n using Nat.strong_induction_on with
  | _ n ih =>
    rw [natDigits]
    by_cases h10 : n < 10
    · rw [natDigitsAux, if_pos h10]
      simp [digitsVal]
    · rw [natDigitsAux, if_neg h10]
      rw [natDigitsAux_acc (n / 10) n [48 + n % 10] (by omega),
        natDigitsAux_fuel_eq (n / 10) n (n / 10 + 1) [] (by omega) (by omega)]
      rw [show natDigitsAux (n / 10 + 1) (n / 10) [] = natDigits (n / 10) from rfl]
      rw [digitsVal_append_one, ih (n / 10) (by omega)]
      omega

theorem natDigits_all_digits (n : Nat) : ∀ x ∈ natDigits n, 48 ≤ x ∧ x ≤ 57 :=
  natDigitsAux_all_digits (n + 1) n [] (by omega) (by intro x hx; cases hx)

theorem natDigits_ne_nil (n : Nat) : natDigits n ≠ [] := by
  have := natDigitsAux_length (n + 1) n [] (by omega)
  intro hcon
  rw [natDigits] at hcon
  rw [hcon] at this
  simp at this

theorem parseInt_serInt (i : Int) (rest : Str) (hrest : headNotDigit rest) :
    parseInt (serInt i ++ rest) = some (i, rest) := by
  obtain ⟨d, t, hdt⟩ : ∃ d t, natDigits i.natAbs = d :: t := by
    cases hnd : natDigits i.natAbs with
    | nil => exact absurd hnd (natDigits_ne_nil _)
    | cons d t => exact ⟨d, t, rfl⟩
  have hall := natDigits_all_digits i.natAbs
  rw [hdt] at hall
  have hd : 48 ≤ d ∧ d ≤ 57 := hall d (List.mem_cons_self d t)
  have ht : ∀ x ∈ t, 48 ≤ x ∧ x ≤ 57 := fun x hx => hall x (List.mem_cons_of_mem d hx)
  have hval : (d - 48) * 10 ^ t.length + digitsVal t = i.natAbs := by
    have h1 := digitsVal_natDigits i.natAbs
    rw [hdt] at h1
    rw [digitsVal, List.foldl_cons] at h1
    have h2 : 0 * 10 + (d - 48) = d - 48 := by omega
    rw [← h1, h2]
    exact (foldl_digits_acc t (d - 48)).symm
  have hrun : parseDigits (t ++ rest) (d - 48) = (i.natAbs, rest) := by
    rw [parseDigits_digits t ht rest (d - 48), parseDigits_stop rest hrest,
      foldl_digits_acc, hval]
  by_cases hneg : i < 0
  · rw [serInt, if_pos hneg, hdt, List.cons_append, List.cons_append, parseInt,
      if_pos rfl]
    simp only [hrun]
    have : -(i.natAbs : Int) = i := by omega
    simp [hd, this]
    rw [abs_of_neg hneg, neg_neg]
  · rw [serInt, if_neg hneg, hdt, List.cons_append, parseInt.eq_def]
    simp only []
    rw [if_neg (show ¬d = 45 by omega), if_pos hd]
    simp only [hrun]
    have : (i.natAbs : Int) = i := by omega
    simp [this]


theorem serStr_shape (s : Str) (rest : Str) :
    serStr s ++ rest = 34 :: (s.flatMap escapeCode ++ 34 :: rest) := by
  simp [serStr]

theorem parseJVal_serStr (s : Str) (hv : validStr s = true) (rest : Str) :
    parseJVal (serStr s ++ rest) = some (JVal.str s, rest) := by
  rw [serStr_shape]
  simp only [parseJVal, if_pos rfl]
  rw [parseStrBody_serStr s hv rest _ (le_refl _)]
  rfl

theorem serInt_head (i : Int) : ∃ h t, serInt i = h :: t ∧ ¬h = 34 := by
  obtain ⟨d, t, hdt⟩ : ∃ d t, natDigits i.natAbs = d :: t := by
    cases hnd : natDigits i.natAbs with
    | nil => exact absurd hnd (natDigits_ne_nil _)
    | cons d t => exact ⟨d, t, rfl⟩
  have hd : 48 ≤ d ∧ d ≤ 57 := by
    have hall := natDigits_all_digits i.natAbs
    rw [hdt] at hall
    exact hall d (List.mem_cons_self d t)
  by_cases hneg : i < 0
  · exact ⟨45, natDigits i.natAbs, by rw [serInt, if_pos hneg], by omega⟩
  · exact ⟨d, t, by rw [serInt, if_neg hneg, hdt], by omega⟩

theorem parseJVal_serJVal (v : JVal) (hv : validJVal v = true) (rest : Str)
    (hrest : headNotDigit rest) :
    parseJVal (serJVal v ++ rest) = some (v, rest) := by
  cases v with
  | str s =>
    have hvs : validStr s = true := by simpa [validJVal] using hv
    rw [serJVal]
    exact parseJVal_serStr s hvs rest
  | num i =>
    rw [serJVal]
    obtain ⟨h, t, hht, hne⟩ := serInt_head i
    rw [hht, List.cons_append]
    simp only [parseJVal, if_neg hne]
    rw [← List.cons_append, ← hht, parseInt_serInt i rest hrest]
    rfl


theorem parseRecEntries_serRecEntries :
    ∀ (r : TokenRecord), validRecord r = true → ∀ (rest : Str) (fuel : Nat),
      r.length ≤ fuel → r ≠ [] →
      parseRecEntries fuel (serRecEntries r ++ 125 :: rest) = some (r, rest) := by
  intro r
  induction r with
  | nil => intro _ _ _ _ hne; exact absurd rfl hne
  | cons e r2 ih =>
    obtain ⟨k, v⟩ := e
    intro hv rest fuel hf _
    have hf1 : 1 ≤ fuel := le_trans (by simp) hf
    obtain ⟨f, rfl⟩ : ∃ f, fuel = f + 1 := ⟨fuel - 1, by omega⟩
    have hval := hv
    rw [validRecord, List.all_cons, Bool.and_eq_true, Bool.and_eq_true] at hval
    obtain ⟨⟨hvk, hvv⟩, hvr2⟩ := hval
    cases r2 with
    | nil =>
      have hshape : serRecEntries [(k, v)] ++ 125 :: rest =
          34 :: (k.flatMap escapeCode ++ 34 ::
            (58 :: 32 :: (serJVal v ++ 125 :: rest))) := by
        simp [serRecEntries, serStr]
      rw [hshape, parseRecEntries, if_pos rfl]
      have h1 := parseStrBody_serStr k hvk (58 :: 32 :: (serJVal v ++ 125 :: rest))
        _ (le_refl _)
      have h2 := parseJVal_serJVal v hvv (125 :: rest) (by simp [headNotDigit])
      rw [h1]
      simp [h2]
    | cons e2 r3 =>
      obtain ⟨k2, v2⟩ := e2
      have hshape : serRecEntries ((k, v) :: (k2, v2) :: r3) ++ 125 :: rest =
          34 :: (k.flatMap escapeCode ++ 34 ::
            (58 :: 32 :: (serJVal v ++ 44 :: 32 ::
              (serRecEntries ((k2, v2) :: r3) ++ 125 :: rest)))) := by
        simp [serRecEntries, serStr]
      rw [hshape, parseRecEntries, if_pos rfl]
      have h1 := parseStrBody_serStr k hvk
        (58 :: 32 :: (serJVal v ++ 44 :: 32 ::
          (serRecEntries ((k2, v2) :: r3) ++ 125 :: rest))) _ (le_refl _)
      have h2 := parseJVal_serJVal v hvv
        (44 :: 32 :: (serRecEntries ((k2, v2) :: r3) ++ 125 :: rest))
        (by simp [headNotDigit])
      have h3 := ih hvr2 rest f (by simpa using Nat.lt_of_succ_le hf) (by simp)
      rw [h1]
      simp [h2, h3]


theorem parseRecord_serRecord (r : TokenRecord) (hv : validRecord r = true)
    (rest : Str) (fuel : Nat) (hf : r.length ≤ fuel) :
    parseRecord fuel (serRecord r ++ rest) = some (r, rest) := by
  cases r with
  | nil => simp [serRecord, serRecEntries, parseRecord]
  | cons e r2 =>
    obtain ⟨k, v⟩ := e
    obtain ⟨T, hT⟩ : ∃ T, serRecEntries ((k, v) :: r2) ++ 125 :: rest = 34 :: T := by
      cases r2 with
      | nil =>
        exact ⟨k.flatMap escapeCode ++ 34 :: (58 :: 32 :: (serJVal v ++ 125 :: rest)),
          by simp [serRecEntries, serStr]⟩
      | cons e2 r3 =>
        exact ⟨k.flatMap escapeCode ++ 34 :: (58 :: 32 :: (serJVal v ++ 44 :: 32 ::
          (serRecEntries (e2 :: r3) ++ 125 :: rest))),
          by simp [serRecEntries, serStr]⟩
    have hent := parseRecEntries_serRecEntries ((k, v) :: r2) hv rest fuel hf (by simp)
    rw [hT] at hent
    have hshape : serRecord ((k, v) :: r2) ++ rest = 123 :: 34 :: T := by
      rw [serRecord, List.cons_append, List.append_assoc, List.singleton_append, hT]
    rw [hshape, parseRecord]
    simp [hent]

theorem maxRecLen_cons (k : Str) (r : TokenRecord) (m : TokenMap) :
    maxRecLen ((k, r) :: m) = max r.length (maxRecLen m) := rfl

theorem parseMapEntries_serMapEntries :
    ∀ (m : TokenMap), validMap m = true → ∀ (rest : Str) (fuel : Nat),
      m.length + maxRecLen m ≤ fuel → m ≠ [] →
      parseMapEntries fuel (serMapEntries m ++ 125 :: rest) = some (m, rest) := by
  intro m
  induction m with
  | nil => intro _ _ _ _ hne; exact absurd rfl hne
  | cons e m2 ih =>
    obtain ⟨k, r⟩ := e
    intro hv rest fuel hf _
    have hf1 : 1 ≤ fuel := le_trans (by rw [List.length_cons]; omega) hf
    obtain ⟨f, rfl⟩ : ∃ f, fuel = f + 1 := ⟨fuel - 1, by omega⟩
    have hval := hv
    rw [validMap, List.all_cons, Bool.and_eq_true, Bool.and_eq_true] at hval
    obtain ⟨⟨hvk, hvr⟩, hvm2⟩ := hval
    rw [List.length_cons, maxRecLen_cons] at hf
    have hrlen : r.length ≤ f + 1 := by
      have h := le_max_left r.length (maxRecLen m2)
      omega
    cases m2 with
    | nil =>
      have hshape : serMapEntries [(k, r)] ++ 125 :: rest =
          34 :: (k.flatMap escapeCode ++ 34 ::
            (58 :: 32 :: (serRecord r ++ 125 :: rest))) := by
        simp [serMapEntries, serStr]
      rw [hshape, parseMapEntries, if_pos rfl]
      have h1 := parseStrBody_serStr k hvk (58 :: 32 :: (serRecord r ++ 125 :: rest))
        _ (le_refl _)
      have h2 := parseRecord_serRecord r hvr (125 :: rest) (f + 1) hrlen
      rw [h1]
      simp [h2]
    | cons e2 m3 =>
      obtain ⟨k2, r2⟩ := e2
      have hshape : serMapEntries ((k, r) :: (k2, r2) :: m3) ++ 125 :: rest =
          34 :: (k.flatMap escapeCode ++ 34 ::
            (58 :: 32 :: (serRecord r ++ 44 :: 32 ::
              (serMapEntries ((k2, r2) :: m3) ++ 125 :: rest)))) := by
        simp [serMapEntries, serStr]
      rw [hshape, parseMapEntries, if_pos rfl]
      have h1 := parseStrBody_serStr k hvk
        (58 :: 32 :: (serRecord r ++ 44 :: 32 ::
          (serMapEntries ((k2, r2) :: m3) ++ 125 :: rest))) _ (le_refl _)
      have h2 := parseRecord_serRecord r hvr
        (44 :: 32 :: (serMapEntries ((k2, r2) :: m3) ++ 125 :: rest)) (f + 1) hrlen
      have h3 := ih hvm2 rest f
        (by rw [List.length_cons, maxRecLen_cons] at hf ⊢; omega) (by simp)
      rw [h1]
      simp [h2, h3]


theorem serStr_len (s : Str) : 2 ≤ (serStr s).length := by
  simp [serStr]

theorem serJVal_len (v : JVal) : 1 ≤ (serJVal v).length := by
  cases v with
  | str s => exact le_trans (by omega) (serStr_len s)
  | num i =>
    rw [serJVal, serInt]
    have h := natDigitsAux_length (i.natAbs + 1) i.natAbs [] (by omega)
    rw [show natDigitsAux (i.natAbs + 1) i.natAbs [] = natDigits i.natAbs from rfl] at h
    simp at h
    split_ifs <;> (simp; try omega)

theorem serRecEntries_len : ∀ (r : TokenRecord), r.length ≤ (serRecEntries r).length := by
  intro r
  induction r with
  | nil => simp [serRecEntries]
  | cons e r2 ih =>
    obtain ⟨k, v⟩ := e
    cases r2 with
    | nil =>
      have h := serStr_len k
      simp [serRecEntries]
      omega
    | cons e2 r3 =>
      obtain ⟨k2, v2⟩ := e2
      have h := serStr_len k
      have hstep : serRecEntries ((k, v) :: (k2, v2) :: r3) =
          serStr k ++ 58 :: 32 :: serJVal v ++ 44 :: 32 ::
            serRecEntries ((k2, v2) :: r3) := by
        simp [serRecEntries]
      rw [hstep]
      simp only [List.length_cons, List.length_append] at ih ⊢
      omega

theorem serRecord_len (r : TokenRecord) : r.length + 2 ≤ (serRecord r).length := by
  have h := serRecEntries_len r
  simp [serRecord]
  omega

theorem serMapEntries_lb :
    ∀ (m : TokenMap), m.length + maxRecLen m ≤ (serMapEntries m).length := by
  intro m
  induction m with
  | nil => simp [serMapEntries, maxRecLen]
  | cons e m2 ih =>
    obtain ⟨k, r⟩ := e
    have hs := serStr_len k
    have hr := serRecord_len r
    have hm : maxRecLen ((k, r) :: m2) = max r.length (maxRecLen m2) := maxRecLen_cons k r m2
    cases m2 with
    | nil =>
      have hm0 : maxRecLen ([] : TokenMap) = 0 := rfl
      rw [List.length_cons, hm, hm0]
      simp only [serMapEntries, List.length_append, List.length_cons, List.length_nil]
      omega
    | cons e2 m3 =>
      obtain ⟨k2, r2⟩ := e2
      have hstep : serMapEntries ((k, r) :: (k2, r2) :: m3) =
          serStr k ++ 58 :: 32 :: serRecord r ++ 44 :: 32 ::
            serMapEntries ((k2, r2) :: m3) := by
        simp [serMapEntries]
      rw [List.length_cons, hm, hstep]
      simp only [List.length_append, List.length_cons] at ih ⊢
      omega

theorem parseMap_serMap (m : TokenMap) (hv : validMap m = true) :
    parseMap (serMap m) = some (m, []) := by
  cases m with
  | nil => rfl
  | cons e m2 =>
    obtain ⟨k, r⟩ := e
    obtain ⟨T, hT⟩ : ∃ T, serMapEntries ((k, r) :: m2) ++ [125] = 34 :: T := by
      cases m2 with
      | nil =>
        exact ⟨k.flatMap escapeCode ++ 34 :: (58 :: 32 :: (serRecord r ++ [125])),
          by simp [serMapEntries, serStr]⟩
      | cons e2 m3 =>
        exact ⟨k.flatMap escapeCode ++ 34 :: (58 :: 32 :: (serRecord r ++ 44 :: 32 ::
          (serMapEntries (e2 :: m3) ++ [125]))),
          by simp [serMapEntries, serStr]⟩
    have hTlen : (serMapEntries ((k, r) :: m2)).length = T.length := by
      have := congrArg List.length hT
      simp at this
      omega
    have hfuel : ((k, r) :: m2).length + maxRecLen ((k, r) :: m2) ≤ T.length + 2 := by
      have := serMapEntries_lb ((k, r) :: m2)
      omega
    have hent := parseMapEntries_serMapEntries ((k, r) :: m2) hv [] (T.length + 2)
      hfuel (by simp)
    rw [show (125 :: [] : Str) = [125] from rfl, hT] at hent
    have hshape : serMap ((k, r) :: m2) = 123 :: 34 :: T := by
      rw [serMap, hT]
    rw [hshape]
    simp [parseMap, hent]

theorem jsonLoadsMap_serMap (m : TokenMap) (hv : validMap m = true) :
    jsonLoadsMap (serMap m) = some m := by
  rw [jsonLoadsMap, parseMap_serMap m hv]


theorem utf8DecodeGo_succ (fuel : Nat) (s : List Nat) :
    utf8DecodeGo (fuel + 1) s = utf8DecodeF (utf8DecodeGo fuel) s := rfl

theorem utf8DecodeF_one (recur : List Nat → Option Str) (c : Nat) (h1 : c < 128)
    (X : List Nat) :
    utf8DecodeF recur (c :: X) = (recur X).map (fun s => c :: s) := by
  simp only [utf8DecodeF]
  rw [if_pos h1]

theorem utf8DecodeF_two (recur : List Nat → Option Str) (c : Nat) (h1 : 128 ≤ c)
    (h2 : c < 2048) (X : List Nat) :
    utf8DecodeF recur ((192 + c / 64) :: (128 + c % 64) :: X) =
      (recur X).map (fun s => c :: s) := by
  simp only [utf8DecodeF]
  rw [if_neg (by omega), if_neg (by omega), if_pos (by omega)]
  rw [if_pos (by omega), if_neg (by omega)]
  have h : (192 + c / 64 - 192) * 64 + (128 + c % 64 - 128) = c := by omega
  rw [h]

theorem utf8DecodeF_three (recur : List Nat → Option Str) (c : Nat) (h1 : 2048 ≤ c)
    (h2 : c < 65536) (h3 : ¬(55296 ≤ c ∧ c ≤ 57343)) (X : List Nat) :
    utf8DecodeF recur ((224 + c / 4096) :: (128 + c / 64 % 64) :: (128 + c % 64) :: X) =
      (recur X).map (fun s => c :: s) := by
  simp only [utf8DecodeF]
  rw [if_neg (by omega), if_neg (by omega), if_neg (by omega), if_pos (by omega)]
  rw [if_pos (by omega)]
  have h : (224 + c / 4096 - 224) * 4096 + (128 + c / 64 % 64 - 128) * 64 +
      (128 + c % 64 - 128) = c := by omega
  rw [h, if_neg (by omega)]

theorem utf8DecodeF_four (recur : List Nat → Option Str) (c : Nat) (h1 : 65536 ≤ c)
    (h2 : c < 1114112) (X : List Nat) :
    utf8DecodeF recur ((240 + c / 262144) :: (128 + c / 4096 % 64) ::
        (128 + c / 64 % 64) :: (128 + c % 64) :: X) =
      (recur X).map (fun s => c :: s) := by
  simp only [utf8DecodeF]
  rw [if_neg (by omega), if_neg (by omega), if_neg (by omega), if_neg (by omega),
    if_pos (by omega)]
  rw [if_pos (by omega)]
  have h : (240 + c / 262144 - 240) * 262144 + (128 + c / 4096 % 64 - 128) * 4096 +
      (128 + c / 64 % 64 - 128) * 64 + (128 + c % 64 - 128) = c := by omega
  rw [h, if_neg (by omega)]

theorem utf8DecodeGo_utf8Encode :
    ∀ (s : Str), validStr s = true → ∀ (fuel : Nat), (utf8Encode s).length < fuel →
      utf8DecodeGo fuel (utf8Encode s) = some s := by
  intro s
  induction s with
  | nil =>
    intro _ fuel hf
    obtain ⟨f, rfl⟩ : ∃ f, fuel = f + 1 := ⟨fuel - 1, by omega⟩
    rfl
  | cons c s2 ih =>
    intro hv fuel hf
    rw [validStr, List.all_cons, Bool.and_eq_true] at hv
    obtain ⟨hc, hs2⟩ := hv
    rw [validCode] at hc
    simp only [Bool.and_eq_true, decide_eq_true_eq, Bool.not_eq_true,
      Bool.not_eq_eq_eq_not, Bool.not_true, Bool.and_eq_false_imp,
      decide_eq_false_iff_not] at hc
    have hc1 : c < 1114112 := hc.1
    have hc2 : ¬(55296 ≤ c ∧ c ≤ 57343) := by
      intro hcon
      have := hc.2
      simp [hcon.1, hcon.2] at this
    have henc : utf8Encode (c :: s2) =
        (if c < 128 then [c]
         else if c < 2048 then [192 + c / 64, 128 + c % 64]
         else if c < 65536 then [224 + c / 4096, 128 + c / 64 % 64, 128 + c % 64]
         else [240 + c / 262144, 128 + c / 4096 % 64, 128 + c / 64 % 64, 128 + c % 64])
          ++ utf8Encode s2 := by
      rw [utf8Encode, utf8Encode, List.flatMap_cons]
    rw [henc] at hf ⊢
    obtain ⟨f, rfl⟩ : ∃ f, fuel = f + 1 := ⟨fuel - 1, by omega⟩
    rw [utf8DecodeGo_succ]
    have hlen : (utf8Encode s2).length < f := by
      have h1 : 1 ≤ (if c < 128 then [c]
          else if c < 2048 then [192 + c / 64, 128 + c % 64]
          else if c < 65536 then [224 + c / 4096, 128 + c / 64 % 64, 128 + c % 64]
          else [240 + c / 262144, 128 + c / 4096 % 64, 128 + c / 64 % 64,
            128 + c % 64]).length := by
        split_ifs <;> simp
      rw [List.length_append] at hf
      omega
    have ih2 := ih hs2 f hlen
    by_cases k1 : c < 128
    · rw [if_pos k1, List.singleton_append, utf8DecodeF_one _ c k1, ih2]
      rfl
    · rw [if_neg k1]
      by_cases k2 : c < 2048
      · rw [if_pos k2]
        simp only [List.cons_append, List.nil_append]
        rw [utf8DecodeF_two _ c (by omega) k2, ih2]
        rfl
      · rw [if_neg k2]
        by_cases k3 : c < 65536
        · rw [if_pos k3]
          simp only [List.cons_append, List.nil_append]
          rw [utf8DecodeF_three _ c (by omega) k3 hc2, ih2]
          rfl
        · rw [if_neg k3]
          simp only [List.cons_append, List.nil_append]
          rw [utf8DecodeF_four _ c (by omega) hc1, ih2]
          rfl

theorem utf8Decode_utf8Encode (s : Str) (hv : validStr s = true) :
    utf8Decode (utf8Encode s) = some s :=
  utf8DecodeGo_utf8Encode s hv _ (by omega)


theorem hexLower_lt (n : Nat) (h : n < 16) : hexLower n < 128 := by
  rw [hexLower]
  split_ifs <;> omega

theorem uEscape_ascii (c : Nat) : ∀ x ∈ uEscape c, x < 128 := by
  intro x hx
  rw [uEscape, uDigits] at hx
  simp only [List.mem_cons, List.not_mem_nil, or_false] at hx
  rcases hx with rfl | rfl | rfl | rfl | rfl | rfl
  · omega
  · omega
  · exact hexLower_lt _ (Nat.mod_lt _ (by omega))
  · exact hexLower_lt _ (Nat.mod_lt _ (by omega))
  · exact hexLower_lt _ (Nat.mod_lt _ (by omega))
  · exact hexLower_lt _ (Nat.mod_lt _ (by omega))

set_option maxHeartbeats 1000000 in
theorem escapeCode_ascii (c : Nat) : ∀ x ∈ escapeCode c, x < 128 := by
  intro x hx
  rw [escapeCode] at hx
  split_ifs at hx
  all_goals first
    | (simp only [List.mem_cons, List.not_mem_nil, or_false] at hx; omega)
    | exact uEscape_ascii _ x hx
    | (rcases List.mem_append.mp hx with h | h
       · exact uEscape_ascii _ x h
       · exact uEscape_ascii _ x h)

theorem serStr_ascii (s : Str) : ∀ x ∈ serStr s, x < 128 := by
  intro x hx
  rw [serStr] at hx
  rcases List.mem_cons.mp hx with rfl | hx
  · omega
  rcases List.mem_append.mp hx with hx | hx
  · obtain ⟨c, _, hxc⟩ := List.mem_flatMap.mp hx
    exact escapeCode_ascii c x hxc
  · simp only [List.mem_cons, List.not_mem_nil, or_false] at hx
    omega

theorem serInt_ascii (i : Int) : ∀ x ∈ serInt i, x < 128 := by
  intro x hx
  have hall := natDigits_all_digits i.natAbs
  rw [serInt] at hx
  split_ifs at hx
  · rcases List.mem_cons.mp hx with rfl | hx
    · omega
    · have := hall x hx
      omega
  · have := hall x hx
    omega

theorem serJVal_ascii (v : JVal) : ∀ x ∈ serJVal v, x < 128 := by
  cases v with
  | str s => exact serStr_ascii s
  | num i => exact serInt_ascii i

theorem serRecEntries_ascii : ∀ (r : TokenRecord), ∀ x ∈ serRecEntries r, x < 128 := by
  intro r
  induction r with
  | nil => intro x hx; cases hx
  | cons e r2 ih =>
    obtain ⟨k, v⟩ := e
    intro x hx
    cases r2 with
    | nil =>
      rw [serRecEntries] at hx
      rcases List.mem_append.mp hx with hx | hx
      · exact serStr_ascii k x hx
      rcases List.mem_cons.mp hx with rfl | hx
      · omega
      rcases List.mem_cons.mp hx with rfl | hx
      · omega
      · exact serJVal_ascii v x hx
    | cons e2 r3 =>
      have hstep : serRecEntries ((k, v) :: e2 :: r3) =
          serStr k ++ 58 :: 32 :: serJVal v ++ 44 :: 32 :: serRecEntries (e2 :: r3) := by
        simp [serRecEntries]
      rw [hstep] at hx
      rcases List.mem_append.mp hx with hx | hx
      · rcases List.mem_append.mp hx with hx | hx
        · exact serStr_ascii k x hx
        rcases List.mem_cons.mp hx with rfl | hx
        · omega
        rcases List.mem_cons.mp hx with rfl | hx
        · omega
        · exact serJVal_ascii v x hx
      · rcases List.mem_cons.mp hx with rfl | hx
        · omega
        rcases List.mem_cons.mp hx with rfl | hx
        · omega
        · exact ih x hx

theorem serRecord_ascii (r : TokenRecord) : ∀ x ∈ serRecord r, x < 128 := by
  intro x hx
  rw [serRecord] at hx
  rcases List.mem_cons.mp hx with rfl | hx
  · omega
  rcases List.mem_append.mp hx with hx | hx
  · exact serRecEntries_ascii r x hx
  · simp only [List.mem_cons, List.not_mem_nil, or_false] at hx
    omega

theorem serMapEntries_ascii : ∀ (m : TokenMap), ∀ x ∈ serMapEntries m, x < 128 := by
  intro m
  induction m with
  | nil => intro x hx; cases hx
  | cons e m2 ih =>
    obtain ⟨k, r⟩ := e
    intro x hx
    cases m2 with
    | nil =>
      rw [serMapEntries] at hx
      rcases List.mem_append.mp hx with hx | hx
      · exact serStr_ascii k x hx
      rcases List.mem_cons.mp hx with rfl | hx
      · omega
      rcases List.mem_cons.mp hx with rfl | hx
      · omega
      · exact serRecord_ascii r x hx
    | cons e2 m3 =>
      have hstep : serMapEntries ((k, r) :: e2 :: m3) =
          serStr k ++ 58 :: 32 :: serRecord r ++ 44 :: 32 :: serMapEntries (e2 :: m3) := by
        simp [serMapEntries]
      rw [hstep] at hx
      rcases List.mem_append.mp hx with hx | hx
      · rcases List.mem_append.mp hx with hx | hx
        · exact serStr_ascii k x hx
        rcases List.mem_cons.mp hx with rfl | hx
        · omega
        rcases List.mem_cons.mp hx with rfl | hx
        · omega
        · exact serRecord_ascii r x hx
      · rcases List.mem_cons.mp hx with rfl | hx
        · omega
        rcases List.mem_cons.mp hx with rfl | hx
        · omega
        · exact ih x hx

theorem serMap_ascii (m : TokenMap) : ∀ x ∈ serMap m, x < 128 := by
  intro x hx
  rw [serMap] at hx
  rcases List.mem_cons.mp hx with rfl | hx
  · omega
  rcases List.mem_append.mp hx with hx | hx
  · exact serMapEntries_ascii m x hx
  · simp only [List.mem_cons, List.not_mem_nil, or_false] at hx
    omega

theorem validStr_of_ascii (s : Str) (h : ∀ x ∈ s, x < 128) : validStr s = true := by
  rw [validStr, List.all_eq_true]
  intro x hx
  have hx128 := h x hx
  rw [validCode]
  have h1 : decide (x < 1114112) = true := decide_eq_true (by omega)
  have h2 : decide (55296 ≤ x) = false := decide_eq_false (by omega)
  rw [h1, h2]
  rfl

theorem validStr_serMap (m : TokenMap) : validStr (serMap m) = true :=
  validStr_of_ascii _ (serMap_ascii m)

theorem tsDecrypt_tsEncrypt (encF : List Nat → List Nat)
    (decF : List Nat → Option (List Nat)) (hround : ∀ b, decF (encF b) = some b)
    (d : TokenMap) (hd : validMap d = true) :
    tsDecrypt decF (tsEncrypt encF d) = some d := by
  rw [tsDecrypt, tsEncrypt, hround, Option.some_bind,
    utf8Decode_utf8Encode _ (validStr_serMap d), Option.some_bind]
  exact jsonLoadsMap_serMap d hd

theorem lookupAssoc_updateAssoc {α : Type} :
    ∀ (d : List (Str × α)) (k : Str) (v : α),
      lookupAssoc (updateAssoc d k v) k = some v := by
  intro d k v
  induction d with
  | nil => simp [updateAssoc, lookupAssoc]
  | cons e rest ih =>
    obtain ⟨k2, v2⟩ := e
    rw [updateAssoc]
    by_cases h : k2 = k
    · rw [if_pos h, lookupAssoc, if_pos rfl]
    · rw [if_neg h, lookupAssoc, if_neg h]
      exact ih

theorem validMap_updateAssoc :
    ∀ (d : TokenMap) (k : Str) (r : TokenRecord), validMap d = true →
      validStr k = true → validRecord r = true →
      validMap (updateAssoc d k r) = true := by
  intro d
  induction d with
  | nil =>
    intro k r _ hk hr
    simp [updateAssoc, validMap, hk, hr]
  | cons e rest ih =>
    intro k r hd hk hr
    obtain ⟨k2, r2⟩ := e
    rw [validMap, List.all_cons, Bool.and_eq_true] at hd
    obtain ⟨he, hrest⟩ := hd
    rw [updateAssoc]
    by_cases h : k2 = k
    · rw [if_pos h, validMap, List.all_cons, Bool.and_eq_true]
      exact ⟨by simp [hk, hr], hrest⟩
    · rw [if_neg h, validMap, List.all_cons, Bool.and_eq_true]
      exact ⟨he, ih k r hrest hk hr⟩

theorem validRecord_injectCreatedAt (t : TokenRecord) (now : Nat)
    (ht : validRecord t = true) :
    validRecord (injectCreatedAt t now) = true := by
  rw [injectCreatedAt]
  split_ifs
  · exact ht
  · have hkv : validStr createdAtKey = true := by decide
    rw [validRecord, List.all_append]
    rw [validRecord] at ht
    rw [ht]
    simp [hkv, validJVal]


/-- C5: for every token mapping `d` and Fernet key whose primitives satisfy
the library contract `decF (encF b) = some b`, `_decrypt (_encrypt d) = d`
(through `json.dumps`/UTF-8/Fernet and back); consequently, for every server
name `n` and token record `t`, `get_tokens n` immediately after
`save_tokens n t` returns `t` with a `created_at` timestamp injected exactly
when `t` did not already contain one. -/
theorem token_store_roundtrip
    (encF : List Nat → List Nat) (decF : List Nat → Option (List Nat))
    (hround : ∀ b, decF (encF b) = some b)
    (d : TokenMap) (hd : validMap d = true)
    (st : TokenStoreState) (name : Str) (t : TokenRecord) (now : Nat)
    (hname : validStr name = true) (ht : validRecord t = true)
    (hload : validMap (loadAll decF st) = true) :
    tsDecrypt decF (tsEncrypt encF d) = some d ∧
    get_tokens decF (save_tokens encF decF st name t now) name =
      some (injectCreatedAt t now) ∧
    (hasKey t createdAtKey = true → injectCreatedAt t now = t) ∧
    (hasKey t createdAtKey = false →
      injectCreatedAt t now = t ++ [(createdAtKey, JVal.num (Int.ofNat now))]) := by
  refine ⟨tsDecrypt_tsEncrypt encF decF hround d hd, ?_, ?_, ?_⟩
  · have hall : validMap
        (updateAssoc (loadAll decF st) name (injectCreatedAt t now)) = true :=
      validMap_updateAssoc _ name _ hload hname (validRecord_injectCreatedAt t now ht)
    rw [get_tokens, save_tokens]
    rw [show loadAll decF { file := some (tsEncrypt encF
          (updateAssoc (loadAll decF st) name (injectCreatedAt t now))) } =
        (tsDecrypt decF (tsEncrypt encF
          (updateAssoc (loadAll decF st) name (injectCreatedAt t now)))).getD []
      from rfl]
    rw [tsDecrypt_tsEncrypt encF decF hround _ hall]
    simp only [Option.getD_some]
    exact lookupAssoc_updateAssoc _ name _
  · intro h
    rw [injectCreatedAt, if_pos h]
  · intro h
    rw [injectCreatedAt, if_neg (by simp [h])]

/-- Witness for C5 at a concrete store: identity Fernet primitives, an
empty token file, one access-token record without `created_at`. -/
theorem token_store_roundtrip_witness :
    tsDecrypt some (tsEncrypt id [(strCodes ("srv"),
        [(strCodes ("access_token"), JVal.str (strCodes ("tok")))])]) =
      some [(strCodes ("srv"),
        [(strCodes ("access_token"), JVal.str (strCodes ("tok")))])] ∧
    get_tokens some (save_tokens id some ⟨none⟩ (strCodes ("srv"))
        [(strCodes ("access_token"), JVal.str (strCodes ("tok")))] 7)
        (strCodes ("srv")) =
      some (injectCreatedAt
        [(strCodes ("access_token"), JVal.str (strCodes ("tok")))] 7) ∧
    (hasKey [(strCodes ("access_token"), JVal.str (strCodes ("tok")))]
        createdAtKey = true →
      injectCreatedAt [(strCodes ("access_token"), JVal.str (strCodes ("tok")))] 7 =
        [(strCodes ("access_token"), JVal.str (strCodes ("tok")))]) ∧
    (hasKey [(strCodes ("access_token"), JVal.str (strCodes ("tok")))]
        createdAtKey = false →
      injectCreatedAt [(strCodes ("access_token"), JVal.str (strCodes ("tok")))] 7 =
        [(strCodes ("access_token"), JVal.str (strCodes ("tok")))] ++
          [(createdAtKey, JVal.num (Int.ofNat 7))]) :=
  token_store_roundtrip id some (fun _ => rfl)
    [(strCodes ("srv"), [(strCodes ("access_token"), JVal.str (strCodes ("tok")))])]
    (by decide) ⟨none⟩ (strCodes ("srv"))
    [(strCodes ("access_token"), JVal.str (strCodes ("tok")))] 7
    (by decide) (by decide) (by decide)

end Oneshot
